import Mathlib

/-
  Verification of the reactive-runtime specification of the svelte runes
  surface (src/packages/svelte/src/main/ambient.d.ts).

  The repository source contains only the ambient TypeScript declarations of
  the entry points (state, derived, effect, effect.pre, ...); the reactive
  core they describe (state cells, derived computations, the two-phase effect
  scheduler, dependency tracking, cleanup and disposal) is specified in
  spec.md sections 3, 4 and 5 but its implementation is not part of the
  source tree.  The runtime below is therefore modelled from the spec: state
  cells carry a value, a version and a subscriber set; derived nodes carry a
  formula, a memoized cache, a dirty flag and a replaced-on-every-run
  dependency set; effects carry a body, a phase, a cleanup slot and a
  disposal flag; an active-context stack attributes reads; a per-phase
  deduplicated queue batches effect runs around an external render step.

  The TypeScript declaration surface itself (overloads and return types of
  the runes) is embedded separately as data at the end of the definitions.
-/

namespace Svelte

/-! ## Basic vocabulary -/

/-- Timing phase of an effect: before or after the external DOM update. -/
inductive Phase
  | pre
  | post
deriving DecidableEq

/-- Reference to a node of the dependency graph. -/
inductive NodeRef
  | cell (i : Nat)
  | derived (i : Nat)
  | effect (i : Nat)
deriving DecidableEq

/-- Modelled from the spec, section 7: the synchronous failure taxonomy of
the reactive core.  A fuel-exhaustion marker is added because the shallow
embedding bounds nested derived evaluation by explicit fuel. -/
inductive RTError
  | dependencyCycle
  | writeDuringDerivation
  | fuelExhausted
deriving DecidableEq

/-- Modelled from the spec, section 4.2: the side-effect-free expression
language of a derived formula.  Values are natural numbers; a formula can
read state cells and other derived values and combine them. -/
inductive Expr
  | lit (n : Nat)
  | readCell (i : Nat)
  | readDerived (i : Nat)
  | add (a b : Expr)
deriving DecidableEq

/-- Modelled from the spec, section 4.3: one step of an effect body, either a
state-cell write (the value computed by an expression) or a tracked read. -/
inductive Cmd
  | cwrite (i : Nat) (e : Expr)
  | cread (e : Expr)
deriving DecidableEq

/-- Observable event of a scheduler tick: an effect run (with the phase it
was flushed in and the DOM version it observed) or the external render
step. -/
inductive Event
  | run (j : Nat) (ph : Phase) (dom : Nat)
  | render
deriving DecidableEq

/-! ## Data model (spec section 3) -/

/-- Modelled from the spec, section 3: a state cell has a value, a
monotonically bumped version and a subscriber set. -/
structure CellNode where
  value : Nat
  version : Nat
  subscribers : List NodeRef
deriving DecidableEq

/-- Modelled from the spec, section 3: a derived node has a formula, a
memoized cache (none encodes UNSET), a dirty flag, a replaced-on-every-run
dependency set and a subscriber set.  A run counter records how many times
the formula has executed. -/
structure DerivedNode where
  formula : Expr
  cachedValue : Option Nat
  dirty : Bool
  deps : List NodeRef
  subscribers : List NodeRef
  runCount : Nat
deriving DecidableEq

/-- Modelled from the spec, section 3: an effect node has a body, a phase, a
dependency set, a cleanup slot and a status.  Whether the body returns a
cleanup is a boolean; pendingCleanup records that a cleanup from the last run
is waiting, and cleanupCount counts cleanup executions. -/
structure EffectNode where
  body : List Cmd
  phase : Phase
  deps : List NodeRef
  hasCleanup : Bool
  pendingCleanup : Bool
  cleanupCount : Nat
  runCount : Nat
  disposed : Bool
deriving DecidableEq

/-- Modelled from the spec, sections 3 and 4.4: the whole runtime state: the
three node stores, the active-context stack, the two per-phase scheduler
queues and the version of the external DOM. -/
structure Runtime where
  cells : List CellNode
  deriveds : List DerivedNode
  effects : List EffectNode
  ctx : List NodeRef
  queuePre : List Nat
  queuePost : List Nat
  domVersion : Nat
deriving DecidableEq

/-- Default cell used for out-of-range access. -/
def defCell : CellNode := { value := 0, version := 0, subscribers := [] }

/-- Default derived node used for out-of-range access. -/
def defDerived : DerivedNode :=
  { formula := Expr.lit 0, cachedValue := none, dirty := true
    deps := [], subscribers := [], runCount := 0 }

/-- Default effect used for out-of-range access; it is disposed, so stale
queue entries naming it are skipped. -/
def defEffect : EffectNode :=
  { body := [], phase := Phase.post, deps := [], hasCleanup := false
    pendingCleanup := false, cleanupCount := 0, runCount := 0, disposed := true }

def getCell (s : Runtime) (i : Nat) : CellNode := s.cells.getD i defCell

def getDerived (s : Runtime) (i : Nat) : DerivedNode := s.deriveds.getD i defDerived

def getEffect (s : Runtime) (i : Nat) : EffectNode := s.effects.getD i defEffect

def modifyCell (s : Runtime) (i : Nat) (f : CellNode → CellNode) : Runtime :=
  { s with cells := s.cells.set i (f (getCell s i)) }

def modifyDerived (s : Runtime) (i : Nat) (f : DerivedNode → DerivedNode) : Runtime :=
  { s with deriveds := s.deriveds.set i (f (getDerived s i)) }

def modifyEffect (s : Runtime) (i : Nat) (f : EffectNode → EffectNode) : Runtime :=
  { s with effects := s.effects.set i (f (getEffect s i)) }

def pushCtx (s : Runtime) (r : NodeRef) : Runtime := { s with ctx := r :: s.ctx }

def popCtx (s : Runtime) : Runtime := { s with ctx := s.ctx.tail }

def queueOf (s : Runtime) (ph : Phase) : List Nat :=
  match ph with
  | Phase.pre => s.queuePre
  | Phase.post => s.queuePost

def setQueue (s : Runtime) (ph : Phase) (q : List Nat) : Runtime :=
  match ph with
  | Phase.pre => { s with queuePre := q }
  | Phase.post => { s with queuePost := q }

/-! ## Dependency edges (spec sections 3 and 4.1, 4.2) -/

/-- Deduplicating insertion at the end: dependency and subscriber sets are
ordered but duplicate-free. -/
def insertRef (l : List NodeRef) (r : NodeRef) : List NodeRef :=
  if r ∈ l then l else l ++ [r]

/-- The dependency set of a node (cells have none). -/
def depsOf (s : Runtime) (r : NodeRef) : List NodeRef :=
  match r with
  | NodeRef.cell _ => []
  | NodeRef.derived k => (getDerived s k).deps
  | NodeRef.effect k => (getEffect s k).deps

def addSubscriber (s : Runtime) (src sub : NodeRef) : Runtime :=
  match src with
  | NodeRef.cell i => modifyCell s i (fun c => { c with subscribers := insertRef c.subscribers sub })
  | NodeRef.derived i => modifyDerived s i (fun d => { d with subscribers := insertRef d.subscribers sub })
  | NodeRef.effect _ => s

def addDepTo (s : Runtime) (r src : NodeRef) : Runtime :=
  match r with
  | NodeRef.cell _ => s
  | NodeRef.derived k => modifyDerived s k (fun d => { d with deps := insertRef d.deps src })
  | NodeRef.effect k => modifyEffect s k (fun e => { e with deps := insertRef e.deps src })

/-- Modelled from the spec, section 4.1: a tracked read registers a
dependency edge between the source and the top of the active context, in
both directions; with an empty context it registers nothing. -/
def registerRead (s : Runtime) (src : NodeRef) : Runtime :=
  match s.ctx.head? with
  | none => s
  | some r => addDepTo (addSubscriber s src r) r src

def removeSub (s : Runtime) (src r : NodeRef) : Runtime :=
  match src with
  | NodeRef.cell i => modifyCell s i (fun c => { c with subscribers := c.subscribers.filter (fun x => x ≠ r) })
  | NodeRef.derived i => modifyDerived s i (fun d => { d with subscribers := d.subscribers.filter (fun x => x ≠ r) })
  | NodeRef.effect _ => s

def setDeps (s : Runtime) (r : NodeRef) (l : List NodeRef) : Runtime :=
  match r with
  | NodeRef.cell _ => s
  | NodeRef.derived k => modifyDerived s k (fun d => { d with deps := l })
  | NodeRef.effect k => modifyEffect s k (fun e => { e with deps := l })

/-- Modelled from the spec, sections 3 and 4.2: before a recomputation the
old dependency edges are dropped on both sides: the node is removed from the
subscriber set of each of its sources and its own dependency set is
emptied. -/
def clearDeps (s : Runtime) (r : NodeRef) : Runtime :=
  setDeps ((depsOf s r).foldl (fun t src => removeSub t src r) s) r []

/-! ## Invalidation and scheduling (spec sections 4.1 and 4.4) -/

/-- Modelled from the spec, section 4.4: enqueue adds the effect to the
pending queue of its phase unless it is already present (idempotent). -/
def enqueueEffect (s : Runtime) (j : Nat) : Runtime :=
  let ph := (getEffect s j).phase
  if j ∈ queueOf s ph then s else setQueue s ph (queueOf s ph ++ [j])

/-- Modelled from the spec, sections 4.1, 4.2 and 4.4: push-based
invalidation.  A dirtied derived is marked dirty (without recomputation) and
its own subscribers are notified in turn; an already-dirty derived stops the
propagation; an active effect is handed to the scheduler, a disposed one is
ignored.  Fuel bounds the recursion of the shallow embedding. -/
def notify (fuel : Nat) : Runtime → NodeRef → Runtime :=
  match fuel with
  | 0 => fun s _ => s
  | fuel + 1 => fun s r =>
      match r with
      | NodeRef.cell _ => s
      | NodeRef.derived k =>
          if (getDerived s k).dirty then s
          else
            ((getDerived s k).subscribers).foldl (notify fuel)
              (modifyDerived s k (fun d => { d with dirty := true }))
      | NodeRef.effect k =>
          if (getEffect s k).disposed then s else enqueueEffect s k

def notifyFuel (s : Runtime) : Nat := s.deriveds.length + 1

/-- Is the top of the active context a derived node? -/
def isDerivedHead (s : Runtime) : Bool :=
  match s.ctx.head? with
  | some (NodeRef.derived _) => true
  | _ => false

/-- Modelled from the spec, section 4.1: a write from inside a derived
formula fails fast; otherwise the write sets the value and bumps the version,
and, only if the new value differs from the previous one under the equality
rule, marks every subscriber dirty and hands the affected effects to the
scheduler. -/
def writeCell (s : Runtime) (i : Nat) (v : Nat) : Except RTError Runtime :=
  if isDerivedHead s then Except.error RTError.writeDuringDerivation
  else
    let c := getCell s i
    let s1 := modifyCell s i (fun c0 => { c0 with value := v, version := c0.version + 1 })
    if v = c.value then Except.ok s1
    else Except.ok (c.subscribers.foldl (notify (notifyFuel s1)) s1)

/-! ## Derived evaluation (spec section 4.2) -/

/-- Modelled from the spec, section 4.2: recomputation of a dirty derived.
The old edges are dropped, the node pushes itself on the active context, the
formula runs through the supplied continuation, the context is popped, the
result is cached, the dirty flag cleared and the run counted. -/
def readDirty (recur : Runtime → Expr → Except RTError (Runtime × Nat))
    (s : Runtime) (i : Nat) : Except RTError (Runtime × Nat) :=
  Except.bind
    (recur (pushCtx (clearDeps s (NodeRef.derived i)) (NodeRef.derived i))
      (getDerived s i).formula)
    (fun p => Except.ok (registerRead (modifyDerived (popCtx p.1) i
      (fun d2 => { d2 with cachedValue := some p.2, dirty := false, runCount := d2.runCount + 1 }))
        (NodeRef.derived i), p.2))

/-- Modelled from the spec, section 4.2: one layer of tracked evaluation.
Reading a derived first checks the active context for a cycle; a dirty
derived in range recomputes through readDirty; a clean one returns its cache
without recomputation.  Either way the read then registers an edge from the
callers context. -/
def evalE (recur : Runtime → Expr → Except RTError (Runtime × Nat)) :
    Runtime → Expr → Except RTError (Runtime × Nat) :=
  fun s e =>
    match e with
    | Expr.lit n => Except.ok (s, n)
    | Expr.add a b =>
        Except.bind (evalE recur s a) (fun p =>
          Except.bind (evalE recur p.1 b) (fun q =>
            Except.ok (q.1, p.2 + q.2)))
    | Expr.readCell i => Except.ok (registerRead s (NodeRef.cell i), (getCell s i).value)
    | Expr.readDerived i =>
        if NodeRef.derived i ∈ s.ctx then Except.error RTError.dependencyCycle
        else if i < s.deriveds.length then
          if (getDerived s i).dirty then readDirty recur s i
          else Except.ok (registerRead s (NodeRef.derived i),
            (getDerived s i).cachedValue.getD 0)
        else Except.ok (s, 0)

/-- Tracked evaluation with fuel for nested derived recomputation. -/
def evalExpr : Nat → Runtime → Expr → Except RTError (Runtime × Nat)
  | 0 => evalE (fun _ _ => Except.error RTError.fuelExhausted)
  | fuel + 1 => evalE (evalExpr fuel)

/-- The ordered, deduplicated list of direct reads an expression performs,
accumulated left to right (out-of-range derived reads register nothing). -/
def collectReads (nD : Nat) : Expr → List NodeRef → List NodeRef
  | Expr.lit _, acc => acc
  | Expr.add a b, acc => collectReads nD b (collectReads nD a acc)
  | Expr.readCell i, acc => insertRef acc (NodeRef.cell i)
  | Expr.readDerived i, acc => if i < nD then insertRef acc (NodeRef.derived i) else acc

/-! ## Effect bodies (spec section 4.3) -/

def execCmd (fuel : Nat) (s : Runtime) : Cmd → Except RTError Runtime
  | Cmd.cwrite i e =>
      Except.bind (evalExpr fuel s e) (fun p => writeCell p.1 i p.2)
  | Cmd.cread e =>
      Except.bind (evalExpr fuel s e) (fun p => Except.ok p.1)

def execCmds (fuel : Nat) : Runtime → List Cmd → Except RTError Runtime
  | s, [] => Except.ok s
  | s, c :: rest =>
      Except.bind (execCmd fuel s c) (fun s1 => execCmds fuel s1 rest)

/-- Direct reads of one body step. -/
def collectCmd (nD : Nat) (c : Cmd) (acc : List NodeRef) : List NodeRef :=
  match c with
  | Cmd.cwrite _ e => collectReads nD e acc
  | Cmd.cread e => collectReads nD e acc

def collectCmds (nD : Nat) (cmds : List Cmd) (acc : List NodeRef) : List NodeRef :=
  cmds.foldl (fun a c => collectCmd nD c a) acc

/-- Run the pending cleanup of an effect, if one is waiting. -/
def runCleanup (s : Runtime) (j : Nat) : Runtime :=
  if (getEffect s j).pendingCleanup then
    modifyEffect s j (fun e => { e with pendingCleanup := false, cleanupCount := e.cleanupCount + 1 })
  else s

def finishEffect (s : Runtime) (j : Nat) (hc : Bool) : Runtime :=
  modifyEffect s j (fun e => { e with pendingCleanup := hc, runCount := e.runCount + 1 })

/-- Modelled from the spec, section 4.3: one (re)run of an effect.  A
disposed effect is inert.  Otherwise any previous cleanup runs first, the old
dependency edges are dropped, the effect is pushed on the active context, the
body executes collecting fresh edges, the context is popped and the returned
cleanup (if the body yields one) is stored.  A body error aborts the run and
is isolated from the rest of the flush. -/
def runEffect (fuel : Nat) (s : Runtime) (j : Nat) : Runtime :=
  let e := getEffect s j
  if e.disposed then s
  else
    let s1 := runCleanup s j
    let s2 := pushCtx (clearDeps s1 (NodeRef.effect j)) (NodeRef.effect j)
    match execCmds fuel s2 e.body with
    | Except.ok s3 => finishEffect (popCtx s3) j e.hasCleanup
    | Except.error _ => popCtx s2

/-- Modelled from the spec, section 4.3: disposal runs the pending cleanup
once, removes the effect from every subscriber set it was registered in and
marks it disposed; disposing an already disposed effect is an idempotent
no-op. -/
def disposeEffect (s : Runtime) (j : Nat) : Runtime :=
  if (getEffect s j).disposed then s
  else
    modifyEffect (clearDeps (runCleanup s j) (NodeRef.effect j)) j
      (fun e => { e with disposed := true })

/-- Modelled from the spec, section 4.3: create(body, phase) registers a new
effect node, runs it once, and returns its index together with its disposal
function. -/
def createEffect (fuel : Nat) (s : Runtime) (body : List Cmd) (ph : Phase) (hc : Bool) :
    Runtime × Nat × (Runtime → Runtime) :=
  let j := s.effects.length
  let e : EffectNode :=
    { body := body, phase := ph, deps := [], hasCleanup := hc
      pendingCleanup := false, cleanupCount := 0, runCount := 0, disposed := false }
  (runEffect fuel { s with effects := s.effects ++ [e] } j, j, fun t => disposeEffect t j)

/-! ## The scheduler (spec section 4.4) -/

/-- Run a drained queue in order, skipping disposed entries, recording one
event per run stamped with the DOM version the effect observes. -/
def runList (fuel : Nat) (ph : Phase) : Runtime → List Nat → Runtime × List Event
  | s, [] => (s, [])
  | s, j :: rest =>
      if (getEffect s j).disposed then runList fuel ph s rest
      else
        let s1 := runEffect fuel s j
        let (s2, tr) := runList fuel ph s1 rest
        (s2, Event.run j ph s.domVersion :: tr)

/-- Modelled from the spec, section 4.4: a flush drains the pending queue of
one phase (so re-entrant writes enqueue into the next flush) and runs each
drained effect once, in enqueue order. -/
def flushPhase (fuel : Nat) (ph : Phase) (s : Runtime) : Runtime × List Event :=
  runList fuel ph (setQueue s ph []) (queueOf s ph)

/-- The external apply-DOM-update step, abstracted as bumping the DOM
version. -/
def renderStep (s : Runtime) : Runtime := { s with domVersion := s.domVersion + 1 }

/-- Modelled from the spec, sections 4.4 and 5: one tick flushes PRE, hands
control to the external render step, then flushes POST. -/
def tick (fuel : Nat) (s : Runtime) : Runtime × List Event :=
  let (s1, t1) := flushPhase fuel Phase.pre s
  let s2 := renderStep s1
  let (s3, t3) := flushPhase fuel Phase.post s2
  (s3, t1 ++ Event.render :: t3)

/-- A top-level write as performed by calling code: a failed write leaves the
state untouched. -/
def applyWrite (s : Runtime) (w : Nat × Nat) : Runtime :=
  match writeCell s w.1 w.2 with
  | Except.ok t => t
  | Except.error _ => s

/-- A synchronous sequence of writes before a flush. -/
def applyWrites (s : Runtime) (ws : List (Nat × Nat)) : Runtime :=
  ws.foldl applyWrite s

/-- Number of run events of effect j in a trace. -/
def runsIn (tr : List Event) (j : Nat) : Nat :=
  tr.countP (fun ev =>
    match ev with
    | Event.run k _ _ => k == j
    | Event.render => false)

/-- Iterated rerun of one effect. -/
def iterateRun (fuel j : Nat) : Nat → Runtime → Runtime
  | 0, s => s
  | n + 1, s => iterateRun fuel j n (runEffect fuel s j)

/-! ## Projections and well-formedness used by the invariants -/

/-- Every field of an effect node except its dependency set. -/
def effCore (e : EffectNode) :
    List Cmd × Phase × Bool × Bool × Nat × Nat × Bool :=
  (e.body, e.phase, e.hasCleanup, e.pendingCleanup, e.cleanupCount, e.runCount, e.disposed)

/-- Every field of a derived node except its dirty flag. -/
def dCore (d : DerivedNode) :
    Expr × Option Nat × Nat × List NodeRef × List NodeRef :=
  (d.formula, d.cachedValue, d.runCount, d.deps, d.subscribers)

/-- The memoization state of a derived node: dirty flag, cache, run count. -/
def dcr (d : DerivedNode) : Bool × Option Nat × Nat :=
  (d.dirty, d.cachedValue, d.runCount)

/-- A context entry is a tracked computation whose index is in range. -/
def refOk (s : Runtime) (r : NodeRef) : Bool :=
  match r with
  | NodeRef.cell _ => false
  | NodeRef.derived k => decide (k < s.deriveds.length)
  | NodeRef.effect k => decide (k < s.effects.length)

/-- Well-formed active context: no duplicate frames, every frame an in-range
derived or effect. -/
def ctxOk (s : Runtime) : Prop :=
  s.ctx.Nodup ∧ ∀ r ∈ s.ctx, refOk s r = true

instance decCtxOk (s : Runtime) : Decidable (ctxOk s) := by
  unfold ctxOk
  infer_instance

/-- State agreement on everything a tracked evaluation cannot change:
queues, DOM version, store sizes, cell values and versions, formulas and the
non-dependency fields of every effect. -/
def baseEq (s t : Runtime) : Prop :=
  t.queuePre = s.queuePre ∧ t.queuePost = s.queuePost ∧
  t.domVersion = s.domVersion ∧
  t.cells.length = s.cells.length ∧
  t.deriveds.length = s.deriveds.length ∧
  t.effects.length = s.effects.length ∧
  (∀ k, (getCell t k).value = (getCell s k).value) ∧
  (∀ k, (getCell t k).version = (getCell s k).version) ∧
  (∀ k, (getDerived t k).formula = (getDerived s k).formula) ∧
  (∀ k, effCore (getEffect t k) = effCore (getEffect s k))

/-- State agreement on everything an effect body cannot change: DOM version,
store sizes, formulas and the non-dependency fields of every effect. -/
def baseCmdEq (s t : Runtime) : Prop :=
  t.domVersion = s.domVersion ∧
  t.cells.length = s.cells.length ∧
  t.deriveds.length = s.deriveds.length ∧
  t.effects.length = s.effects.length ∧
  (∀ k, (getDerived t k).formula = (getDerived s k).formula) ∧
  (∀ k, effCore (getEffect t k) = effCore (getEffect s k))

/-- Full postcondition of one successful tracked evaluation, spec sections
3 and 4.2: the context is restored, the untouchable state is unchanged, the
memoization state of every computation on the context is untouched, and the
dependency set of the context top grows by exactly the reads of the
evaluated expression while other context frames keep theirs. -/
def EvalOk (s : Runtime) (e : Expr) (t : Runtime) : Prop :=
  t.ctx = s.ctx ∧
  baseEq s t ∧
  (∀ k, NodeRef.derived k ∈ s.ctx → dcr (getDerived t k) = dcr (getDerived s k)) ∧
  (ctxOk s → ∀ r ∈ s.ctx, depsOf t r =
      (if s.ctx.head? = some r then collectReads s.deriveds.length e (depsOf s r)
       else depsOf s r))

/-- Postcondition of one successful effect-body execution. -/
def CmdOk (s : Runtime) (cmds : List Cmd) (t : Runtime) : Prop :=
  t.ctx = s.ctx ∧
  baseCmdEq s t ∧
  (ctxOk s → ∀ r ∈ s.ctx, depsOf t r =
      (if s.ctx.head? = some r then collectCmds s.deriveds.length cmds (depsOf s r)
       else depsOf s r))

/-- Everything push-based invalidation leaves untouched: cells, effects,
context, DOM version, store size, and every derived field except the dirty
flag. -/
def notifyPres (s t : Runtime) : Prop :=
  t.cells = s.cells ∧ t.effects = s.effects ∧ t.ctx = s.ctx ∧
  t.domVersion = s.domVersion ∧ t.deriveds.length = s.deriveds.length ∧
  (∀ k, dCore (getDerived t k) = dCore (getDerived s k))

/-- Everything a successful write leaves untouched: a write never executes a
formula, never changes a dependency set and never touches the context. -/
def writePres (s t : Runtime) : Prop :=
  t.ctx = s.ctx ∧ t.domVersion = s.domVersion ∧
  t.cells.length = s.cells.length ∧
  t.deriveds.length = s.deriveds.length ∧ t.effects.length = s.effects.length ∧
  (∀ k, (getDerived t k).formula = (getDerived s k).formula) ∧
  (∀ k, (getDerived t k).cachedValue = (getDerived s k).cachedValue) ∧
  (∀ k, (getDerived t k).runCount = (getDerived s k).runCount) ∧
  (∀ k, effCore (getEffect t k) = effCore (getEffect s k)) ∧
  (∀ r, depsOf t r = depsOf s r)

/-- Both scheduler queues are duplicate-free. -/
def queuesNodup (s : Runtime) : Prop :=
  s.queuePre.Nodup ∧ s.queuePost.Nodup

/-- Everything edge bookkeeping leaves untouched: the context, the base
state and the memoization state of every derived node. -/
def trackPres (s t : Runtime) : Prop :=
  t.ctx = s.ctx ∧ baseEq s t ∧
  (∀ k, dcr (getDerived t k) = dcr (getDerived s k))

/-- Does the expression contain a read of derived k? -/
def occursD (k : Nat) : Expr → Bool
  | Expr.lit _ => false
  | Expr.add a b => occursD k a || occursD k b
  | Expr.readCell _ => false
  | Expr.readDerived m => m == k

/-- Expression free of derived reads (cannot raise any error). -/
def exprND : Expr → Bool
  | Expr.lit _ => true
  | Expr.add a b => exprND a && exprND b
  | Expr.readCell _ => true
  | Expr.readDerived _ => false

/-- Body step free of derived reads. -/
def cmdND : Cmd → Bool
  | Cmd.cwrite _ e => exprND e
  | Cmd.cread e => exprND e

/-! ## The declaration surface of ambient.d.ts, embedded as data -/

/-- The fragment of TypeScript types used by the rune declarations. -/
inductive TSType
  | tvar
  | undef
  | voidT
  | unionT (a b : TSType)
  | fnT0 (ret : TSType)
deriving DecidableEq

/-- One declared overload: parameter types and return type. -/
structure TSOverload where
  params : List TSType
  ret : TSType
deriving DecidableEq

/-- Is the type a function type? -/
def TSType.isFn : TSType → Bool
  | TSType.fnT0 _ => true
  | _ => false

/-- Transcribed from src/packages/svelte/src/main/ambient.d.ts lines 17-18:
declare function state(initial: T): T and declare function state(): T or
undefined. -/
def stateDeclTS : List TSOverload :=
  [{ params := [TSType.tvar], ret := TSType.tvar },
   { params := [], ret := TSType.unionT TSType.tvar TSType.undef }]

/-- The type of an effect callback: () => void | (() => void). -/
def effectFnTS : TSType :=
  TSType.fnT0 (TSType.unionT TSType.voidT (TSType.fnT0 TSType.voidT))

/-- Transcribed from src/packages/svelte/src/main/ambient.d.ts line 51:
declare function effect(fn: () => void | (() => void)): void. -/
def effectDeclTS : TSOverload :=
  { params := [effectFnTS], ret := TSType.voidT }

/-- Transcribed from src/packages/svelte/src/main/ambient.d.ts line 70:
export function pre(fn: () => void | (() => void)): void. -/
def effectPreDeclTS : TSOverload :=
  { params := [effectFnTS], ret := TSType.voidT }

/-! ## Concrete states used by the witnesses -/

/-- Witness state: one cell with one derived and one effect subscribed. -/
def wState : Runtime :=
  { cells := [{ value := 1, version := 5, subscribers := [NodeRef.derived 0, NodeRef.effect 0] }]
    deriveds := [{ formula := Expr.readCell 0, cachedValue := some 1, dirty := false
                   deps := [NodeRef.cell 0], subscribers := [NodeRef.effect 0], runCount := 1 }]
    effects := [{ body := [Cmd.cread (Expr.readCell 0)], phase := Phase.post, deps := []
                  hasCleanup := true, pendingCleanup := false, cleanupCount := 0
                  runCount := 0, disposed := false }]
    ctx := [], queuePre := [], queuePost := [], domVersion := 0 }

/-- Witness state: two mutually reading dirty derived nodes. -/
def wCycle : Runtime :=
  { cells := []
    deriveds := [{ formula := Expr.readDerived 1, cachedValue := none, dirty := true
                   deps := [], subscribers := [], runCount := 0 },
                 { formula := Expr.readDerived 0, cachedValue := none, dirty := true
                   deps := [], subscribers := [], runCount := 0 }]
    effects := [], ctx := [], queuePre := [], queuePost := [], domVersion := 0 }

/-- Witness state: a dirty derived over one cell. -/
def wDirty : Runtime :=
  { cells := [{ value := 3, version := 0, subscribers := [] }]
    deriveds := [{ formula := Expr.add (Expr.readCell 0) (Expr.readCell 0), cachedValue := none
                   dirty := true, deps := [], subscribers := [], runCount := 0 }]
    effects := [], ctx := [], queuePre := [], queuePost := [], domVersion := 0 }

/-- Witness state: evaluation context sitting inside the derived 0 formula. -/
def wInDerivation : Runtime :=
  { cells := [{ value := 4, version := 2, subscribers := [] }]
    deriveds := [{ formula := Expr.readCell 0, cachedValue := none, dirty := true
                   deps := [], subscribers := [], runCount := 0 }]
    effects := [], ctx := [NodeRef.derived 0], queuePre := [], queuePost := [], domVersion := 0 }

/-- Result of a tracked evaluation, defaulting to the input state on error;
used to name concrete evaluation results in witnesses. -/
def evalResult (fuel : Nat) (s : Runtime) (e : Expr) : Runtime × Nat :=
  match evalExpr fuel s e with
  | Except.ok p => p
  | Except.error _ => (s, 0)

/-- Result of an effect-body execution, defaulting to the input state on
error; used to name concrete execution results in witnesses. -/
def execResult (fuel : Nat) (s : Runtime) (cmds : List Cmd) : Runtime :=
  match execCmds fuel s cmds with
  | Except.ok t => t
  | Except.error _ => s

instance decEqExceptRTState : DecidableEq (Except RTError Runtime) := fun a b =>
  match a, b with
  | Except.ok x, Except.ok y =>
      if h : x = y then Decidable.isTrue (by rw [h])
      else Decidable.isFalse (by intro hc; cases hc; exact h rfl)
  | Except.ok _, Except.error _ => Decidable.isFalse (by intro hc; cases hc)
  | Except.error _, Except.ok _ => Decidable.isFalse (by intro hc; cases hc)
  | Except.error x, Except.error y =>
      if h : x = y then Decidable.isTrue (by rw [h])
      else Decidable.isFalse (by intro hc; cases hc; exact h rfl)

instance decEqExceptRT : DecidableEq (Except RTError (Runtime × Nat)) := fun a b =>
  match a, b with
  | Except.ok x, Except.ok y =>
      if h : x = y then Decidable.isTrue (by rw [h])
      else Decidable.isFalse (by intro hc; cases hc; exact h rfl)
  | Except.ok _, Except.error _ => Decidable.isFalse (by intro hc; cases hc)
  | Except.error _, Except.ok _ => Decidable.isFalse (by intro hc; cases hc)
  | Except.error x, Except.error y =>
      if h : x = y then Decidable.isTrue (by rw [h])
      else Decidable.isFalse (by intro hc; cases hc; exact h rfl)

/-! # Lemma layer: list access helpers -/

theorem getD_set_self {α : Type} (l : List α) (i : Nat) (a d : α) (h : i < l.length) :
    (l.set i a).getD i d = a := by
  simp [List.getD, List.getElem?_set_self, h]

theorem getD_set_ne {α : Type} (l : List α) (i k : Nat) (a d : α) (h : i ≠ k) :
    (l.set i a).getD k d = l.getD k d := by
  simp [List.getD, List.getElem?_set_ne h]

theorem getD_set_proj {α β : Type} (l : List α) (i : Nat) (a d : α) (g : α → β)
    (hg : g a = g (l.getD i d)) (k : Nat) :
    g ((l.set i a).getD k d) = g (l.getD k d) := by
  by_cases hik : i = k
  · subst hik
    by_cases h : i < l.length
    · rw [getD_set_self l i a d h, hg]
    · rw [List.set_eq_of_length_le (Nat.le_of_not_lt h)]
  · rw [getD_set_ne l i k a d hik]

theorem foldl_preserve {σ α : Type} (step : σ → α → σ) (P : σ → Prop)
    (h : ∀ t x, P t → P (step t x)) :
    ∀ (l : List α) (t : σ), P t → P (l.foldl step t) := by
  intro l
  induction l with
  | nil => intro t ht; exact ht
  | cons a l ih => intro t ht; exact ih (step t a) (h t a ht)

theorem foldl_establish {σ α : Type} (step : σ → α → σ) (G : σ → Prop) (P : σ → α → Prop)
    (hG : ∀ t x, G t → G (step t x))
    (hEst : ∀ t x, G t → P (step t x) x)
    (hPres : ∀ t x y, G t → P t y → P (step t x) y) :
    ∀ (l : List α) (t : σ), G t → ∀ x ∈ l, P (l.foldl step t) x := by
  intro l
  induction l with
  | nil => intro t _ x hx; cases hx
  | cons a l ih =>
      intro t hGt x hx
      rcases List.mem_cons.mp hx with hxa | hxl
      · subst hxa
        rw [List.foldl_cons]
        exact (foldl_preserve step (fun u => G u ∧ P u x)
          (fun u y hu => ⟨hG u y hu.1, hPres u y x hu.1 hu.2⟩) l (step t x)
          ⟨hG t x hGt, hEst t x hGt⟩).2
      · rw [List.foldl_cons]
        exact ih (step t a) (hG t a hGt) x hxl

/-! ## Projection lemmas for the primitive state operations -/

@[simp] theorem modifyCell_deriveds (s : Runtime) (i : Nat) (f : CellNode → CellNode) :
    (modifyCell s i f).deriveds = s.deriveds := rfl
@[simp] theorem modifyCell_effects (s : Runtime) (i : Nat) (f : CellNode → CellNode) :
    (modifyCell s i f).effects = s.effects := rfl
@[simp] theorem modifyCell_ctx (s : Runtime) (i : Nat) (f : CellNode → CellNode) :
    (modifyCell s i f).ctx = s.ctx := rfl
@[simp] theorem modifyCell_queuePre (s : Runtime) (i : Nat) (f : CellNode → CellNode) :
    (modifyCell s i f).queuePre = s.queuePre := rfl
@[simp] theorem modifyCell_queuePost (s : Runtime) (i : Nat) (f : CellNode → CellNode) :
    (modifyCell s i f).queuePost = s.queuePost := rfl
@[simp] theorem modifyCell_dom (s : Runtime) (i : Nat) (f : CellNode → CellNode) :
    (modifyCell s i f).domVersion = s.domVersion := rfl
@[simp] theorem modifyCell_cells_length (s : Runtime) (i : Nat) (f : CellNode → CellNode) :
    (modifyCell s i f).cells.length = s.cells.length := by
  simp [modifyCell]

@[simp] theorem modifyDerived_cells (s : Runtime) (i : Nat) (f : DerivedNode → DerivedNode) :
    (modifyDerived s i f).cells = s.cells := rfl
@[simp] theorem modifyDerived_effects (s : Runtime) (i : Nat) (f : DerivedNode → DerivedNode) :
    (modifyDerived s i f).effects = s.effects := rfl
@[simp] theorem modifyDerived_ctx (s : Runtime) (i : Nat) (f : DerivedNode → DerivedNode) :
    (modifyDerived s i f).ctx = s.ctx := rfl
@[simp] theorem modifyDerived_queuePre (s : Runtime) (i : Nat) (f : DerivedNode → DerivedNode) :
    (modifyDerived s i f).queuePre = s.queuePre := rfl
@[simp] theorem modifyDerived_queuePost (s : Runtime) (i : Nat) (f : DerivedNode → DerivedNode) :
    (modifyDerived s i f).queuePost = s.queuePost := rfl
@[simp] theorem modifyDerived_dom (s : Runtime) (i : Nat) (f : DerivedNode → DerivedNode) :
    (modifyDerived s i f).domVersion = s.domVersion := rfl
@[simp] theorem modifyDerived_deriveds_length (s : Runtime) (i : Nat) (f : DerivedNode → DerivedNode) :
    (modifyDerived s i f).deriveds.length = s.deriveds.length := by
  simp [modifyDerived]

@[simp] theorem modifyEffect_cells (s : Runtime) (i : Nat) (f : EffectNode → EffectNode) :
    (modifyEffect s i f).cells = s.cells := rfl
@[simp] theorem modifyEffect_deriveds (s : Runtime) (i : Nat) (f : EffectNode → EffectNode) :
    (modifyEffect s i f).deriveds = s.deriveds := rfl
@[simp] theorem modifyEffect_ctx (s : Runtime) (i : Nat) (f : EffectNode → EffectNode) :
    (modifyEffect s i f).ctx = s.ctx := rfl
@[simp] theorem modifyEffect_queuePre (s : Runtime) (i : Nat) (f : EffectNode → EffectNode) :
    (modifyEffect s i f).queuePre = s.queuePre := rfl
@[simp] theorem modifyEffect_queuePost (s : Runtime) (i : Nat) (f : EffectNode → EffectNode) :
    (modifyEffect s i f).queuePost = s.queuePost := rfl
@[simp] theorem modifyEffect_dom (s : Runtime) (i : Nat) (f : EffectNode → EffectNode) :
    (modifyEffect s i f).domVersion = s.domVersion := rfl
@[simp] theorem modifyEffect_effects_length (s : Runtime) (i : Nat) (f : EffectNode → EffectNode) :
    (modifyEffect s i f).effects.length = s.effects.length := by
  simp [modifyEffect]

@[simp] theorem pushCtx_cells (s : Runtime) (r : NodeRef) : (pushCtx s r).cells = s.cells := rfl
@[simp] theorem pushCtx_deriveds (s : Runtime) (r : NodeRef) : (pushCtx s r).deriveds = s.deriveds := rfl
@[simp] theorem pushCtx_effects (s : Runtime) (r : NodeRef) : (pushCtx s r).effects = s.effects := rfl
@[simp] theorem pushCtx_ctx (s : Runtime) (r : NodeRef) : (pushCtx s r).ctx = r :: s.ctx := rfl
@[simp] theorem pushCtx_queuePre (s : Runtime) (r : NodeRef) : (pushCtx s r).queuePre = s.queuePre := rfl
@[simp] theorem pushCtx_queuePost (s : Runtime) (r : NodeRef) : (pushCtx s r).queuePost = s.queuePost := rfl
@[simp] theorem pushCtx_dom (s : Runtime) (r : NodeRef) : (pushCtx s r).domVersion = s.domVersion := rfl

@[simp] theorem popCtx_cells (s : Runtime) : (popCtx s).cells = s.cells := rfl
@[simp] theorem popCtx_deriveds (s : Runtime) : (popCtx s).deriveds = s.deriveds := rfl
@[simp] theorem popCtx_effects (s : Runtime) : (popCtx s).effects = s.effects := rfl
@[simp] theorem popCtx_ctx (s : Runtime) : (popCtx s).ctx = s.ctx.tail := rfl
@[simp] theorem popCtx_queuePre (s : Runtime) : (popCtx s).queuePre = s.queuePre := rfl
@[simp] theorem popCtx_queuePost (s : Runtime) : (popCtx s).queuePost = s.queuePost := rfl
@[simp] theorem popCtx_dom (s : Runtime) : (popCtx s).domVersion = s.domVersion := rfl

@[simp] theorem setQueue_cells (s : Runtime) (ph : Phase) (q : List Nat) :
    (setQueue s ph q).cells = s.cells := by cases ph <;> rfl
@[simp] theorem setQueue_deriveds (s : Runtime) (ph : Phase) (q : List Nat) :
    (setQueue s ph q).deriveds = s.deriveds := by cases ph <;> rfl
@[simp] theorem setQueue_effects (s : Runtime) (ph : Phase) (q : List Nat) :
    (setQueue s ph q).effects = s.effects := by cases ph <;> rfl
@[simp] theorem setQueue_ctx (s : Runtime) (ph : Phase) (q : List Nat) :
    (setQueue s ph q).ctx = s.ctx := by cases ph <;> rfl
@[simp] theorem setQueue_dom (s : Runtime) (ph : Phase) (q : List Nat) :
    (setQueue s ph q).domVersion = s.domVersion := by cases ph <;> rfl

@[simp] theorem getCell_ext (s t : Runtime) (h : t.cells = s.cells) (k : Nat) :
    getCell t k = getCell s k := by simp [getCell, h]
@[simp] theorem getDerived_ext (s t : Runtime) (h : t.deriveds = s.deriveds) (k : Nat) :
    getDerived t k = getDerived s k := by simp [getDerived, h]
@[simp] theorem getEffect_ext (s t : Runtime) (h : t.effects = s.effects) (k : Nat) :
    getEffect t k = getEffect s k := by simp [getEffect, h]

theorem getDerived_modify_self (s : Runtime) (i : Nat) (f : DerivedNode → DerivedNode)
    (h : i < s.deriveds.length) :
    getDerived (modifyDerived s i f) i = f (getDerived s i) := by
  unfold getDerived modifyDerived
  exact getD_set_self _ _ _ _ h

theorem getDerived_modify_ne (s : Runtime) (i k : Nat) (f : DerivedNode → DerivedNode)
    (h : i ≠ k) :
    getDerived (modifyDerived s i f) k = getDerived s k := by
  unfold getDerived modifyDerived
  exact getD_set_ne _ _ _ _ _ h

theorem getEffect_modify_self (s : Runtime) (i : Nat) (f : EffectNode → EffectNode)
    (h : i < s.effects.length) :
    getEffect (modifyEffect s i f) i = f (getEffect s i) := by
  unfold getEffect modifyEffect
  exact getD_set_self _ _ _ _ h

theorem getEffect_modify_ne (s : Runtime) (i k : Nat) (f : EffectNode → EffectNode)
    (h : i ≠ k) :
    getEffect (modifyEffect s i f) k = getEffect s k := by
  unfold getEffect modifyEffect
  exact getD_set_ne _ _ _ _ _ h

theorem getCell_modify_self (s : Runtime) (i : Nat) (f : CellNode → CellNode)
    (h : i < s.cells.length) :
    getCell (modifyCell s i f) i = f (getCell s i) := by
  unfold getCell modifyCell
  exact getD_set_self _ _ _ _ h

theorem getCell_modify_ne (s : Runtime) (i k : Nat) (f : CellNode → CellNode)
    (h : i ≠ k) :
    getCell (modifyCell s i f) k = getCell s k := by
  unfold getCell modifyCell
  exact getD_set_ne _ _ _ _ _ h

theorem getCell_modify_proj {β : Type} (s : Runtime) (i : Nat) (f : CellNode → CellNode)
    (g : CellNode → β) (hg : g (f (getCell s i)) = g (getCell s i)) (k : Nat) :
    g (getCell (modifyCell s i f) k) = g (getCell s k) := by
  unfold getCell modifyCell
  exact getD_set_proj _ _ _ _ g hg k

theorem getDerived_modify_proj {β : Type} (s : Runtime) (i : Nat) (f : DerivedNode → DerivedNode)
    (g : DerivedNode → β) (hg : g (f (getDerived s i)) = g (getDerived s i)) (k : Nat) :
    g (getDerived (modifyDerived s i f) k) = g (getDerived s k) := by
  unfold getDerived modifyDerived
  exact getD_set_proj _ _ _ _ g hg k

theorem getEffect_modify_proj {β : Type} (s : Runtime) (i : Nat) (f : EffectNode → EffectNode)
    (g : EffectNode → β) (hg : g (f (getEffect s i)) = g (getEffect s i)) (k : Nat) :
    g (getEffect (modifyEffect s i f) k) = g (getEffect s k) := by
  unfold getEffect modifyEffect
  exact getD_set_proj _ _ _ _ g hg k

theorem queueOf_ext (s t : Runtime) (h1 : t.queuePre = s.queuePre)
    (h2 : t.queuePost = s.queuePost) (ph : Phase) : queueOf t ph = queueOf s ph := by
  cases ph <;> simp [queueOf, h1, h2]

@[simp] theorem queueOf_setQueue_self (s : Runtime) (ph : Phase) (q : List Nat) :
    queueOf (setQueue s ph q) ph = q := by cases ph <;> rfl

theorem dCore_deps (d1 d2 : DerivedNode) (h : dCore d1 = dCore d2) : d1.deps = d2.deps := by
  simpa [dCore] using congrArg (fun p => p.2.2.2.1) h

theorem dCore_formula (d1 d2 : DerivedNode) (h : dCore d1 = dCore d2) : d1.formula = d2.formula := by
  simpa [dCore] using congrArg (fun p => p.1) h

theorem dCore_cached (d1 d2 : DerivedNode) (h : dCore d1 = dCore d2) :
    d1.cachedValue = d2.cachedValue := by
  simpa [dCore] using congrArg (fun p => p.2.1) h

theorem dCore_runCount (d1 d2 : DerivedNode) (h : dCore d1 = dCore d2) :
    d1.runCount = d2.runCount := by
  simpa [dCore] using congrArg (fun p => p.2.2.1) h

theorem dCore_subscribers (d1 d2 : DerivedNode) (h : dCore d1 = dCore d2) :
    d1.subscribers = d2.subscribers := by
  simpa [dCore] using congrArg (fun p => p.2.2.2.2) h

theorem effCore_body (e1 e2 : EffectNode) (h : effCore e1 = effCore e2) : e1.body = e2.body := by
  simpa [effCore] using congrArg (fun p => p.1) h

theorem effCore_phase (e1 e2 : EffectNode) (h : effCore e1 = effCore e2) : e1.phase = e2.phase := by
  simpa [effCore] using congrArg (fun p => p.2.1) h

theorem effCore_hasCleanup (e1 e2 : EffectNode) (h : effCore e1 = effCore e2) :
    e1.hasCleanup = e2.hasCleanup := by
  simpa [effCore] using congrArg (fun p => p.2.2.1) h

theorem effCore_pending (e1 e2 : EffectNode) (h : effCore e1 = effCore e2) :
    e1.pendingCleanup = e2.pendingCleanup := by
  simpa [effCore] using congrArg (fun p => p.2.2.2.1) h

theorem effCore_cleanupCount (e1 e2 : EffectNode) (h : effCore e1 = effCore e2) :
    e1.cleanupCount = e2.cleanupCount := by
  simpa [effCore] using congrArg (fun p => p.2.2.2.2.1) h

theorem effCore_runCount (e1 e2 : EffectNode) (h : effCore e1 = effCore e2) :
    e1.runCount = e2.runCount := by
  simpa [effCore] using congrArg (fun p => p.2.2.2.2.2.1) h

theorem effCore_disposed (e1 e2 : EffectNode) (h : effCore e1 = effCore e2) :
    e1.disposed = e2.disposed := by
  simpa [effCore] using congrArg (fun p => p.2.2.2.2.2.2) h

/-! ## Properties of push-based invalidation (notify) -/

theorem notifyPres_refl (s : Runtime) : notifyPres s s :=
  ⟨rfl, rfl, rfl, rfl, rfl, fun _ => rfl⟩

theorem notifyPres_trans {s t u : Runtime} (h1 : notifyPres s t) (h2 : notifyPres t u) :
    notifyPres s u := by
  obtain ⟨p1, p2, p3, p4, p5, p6⟩ := h1
  obtain ⟨q1, q2, q3, q4, q5, q6⟩ := h2
  refine ⟨q1.trans p1, q2.trans p2, q3.trans p3, q4.trans p4, q5.trans p5, ?_⟩
  intro k
  exact (q6 k).trans (p6 k)

theorem notifyPres_depsOf {s t : Runtime} (h : notifyPres s t) (r : NodeRef) :
    depsOf t r = depsOf s r := by
  obtain ⟨_, he, _, _, _, hd⟩ := h
  cases r with
  | cell i => rfl
  | derived k => exact dCore_deps _ _ (hd k)
  | effect k => simp [depsOf, getEffect, he]

@[simp] theorem notify_zero (s : Runtime) (r : NodeRef) : notify 0 s r = s := rfl

theorem notify_succ_cell (fuel : Nat) (s : Runtime) (i : Nat) :
    notify (fuel + 1) s (NodeRef.cell i) = s := rfl

theorem notify_succ_derived (fuel : Nat) (s : Runtime) (k : Nat) :
    notify (fuel + 1) s (NodeRef.derived k) =
      if (getDerived s k).dirty = true then s
      else ((getDerived s k).subscribers).foldl (notify fuel)
        (modifyDerived s k (fun d => { d with dirty := true })) := rfl

theorem notify_succ_effect (fuel : Nat) (s : Runtime) (k : Nat) :
    notify (fuel + 1) s (NodeRef.effect k) =
      if (getEffect s k).disposed = true then s else enqueueEffect s k := rfl

theorem enqueue_notifyPres (s : Runtime) (j : Nat) : notifyPres s (enqueueEffect s j) := by
  by_cases h : j ∈ queueOf s ((getEffect s j).phase)
  · simp [enqueueEffect, h]
    exact notifyPres_refl s
  · simp [enqueueEffect, h]
    refine ⟨by simp, by simp, by simp, by simp, by simp, ?_⟩
    intro k
    rw [getDerived_ext s _ (by simp) k]

theorem modifyDirty_notifyPres (s : Runtime) (k : Nat) :
    notifyPres s (modifyDerived s k (fun d => { d with dirty := true })) := by
  refine ⟨rfl, rfl, rfl, rfl, by simp, ?_⟩
  intro k2
  exact getDerived_modify_proj s k _ dCore (by simp [dCore]) k2

theorem notify_pres : ∀ (fuel : Nat) (r : NodeRef) (s : Runtime),
    notifyPres s (notify fuel s r) := by
  intro fuel
  induction fuel with
  | zero => intro r s; exact notifyPres_refl s
  | succ fuel ih =>
      intro r s
      cases r with
      | cell i => exact notifyPres_refl s
      | derived k =>
          rw [notify_succ_derived]
          by_cases hd : (getDerived s k).dirty = true
          · rw [if_pos hd]; exact notifyPres_refl s
          · rw [if_neg hd]
            exact foldl_preserve (notify fuel) (fun t => notifyPres s t)
              (fun t x ht => notifyPres_trans ht (ih x t)) _ _
              (modifyDirty_notifyPres s k)
      | effect k =>
          rw [notify_succ_effect]
          by_cases hd : (getEffect s k).disposed = true
          · rw [if_pos hd]; exact notifyPres_refl s
          · rw [if_neg hd]; exact enqueue_notifyPres s k

theorem queueOf_setQueue_ne (s : Runtime) (ph1 ph2 : Phase) (q : List Nat)
    (h : ph1 ≠ ph2) : queueOf (setQueue s ph1 q) ph2 = queueOf s ph2 := by
  cases ph1 <;> cases ph2 <;> simp_all [setQueue, queueOf]

theorem mem_queue_enqueue (s : Runtime) (j j2 : Nat) (ph : Phase)
    (h : j2 ∈ queueOf s ph) : j2 ∈ queueOf (enqueueEffect s j) ph := by
  by_cases hmem : j ∈ queueOf s ((getEffect s j).phase)
  · simpa [enqueueEffect, hmem] using h
  · simp only [enqueueEffect, hmem, if_false, ite_false]
    by_cases hph : (getEffect s j).phase = ph
    · rw [hph, queueOf_setQueue_self]
      exact List.mem_append_left _ h
    · rw [queueOf_setQueue_ne s _ ph _ hph]
      exact h

theorem notify_mono : ∀ (fuel : Nat) (r : NodeRef) (s : Runtime),
    (∀ k, (getDerived s k).dirty = true → (getDerived (notify fuel s r) k).dirty = true) ∧
    (∀ j2 ph, j2 ∈ queueOf s ph → j2 ∈ queueOf (notify fuel s r) ph) := by
  intro fuel
  induction fuel with
  | zero => intro r s; exact ⟨fun k h => h, fun j2 ph h => h⟩
  | succ fuel ih =>
      intro r s
      cases r with
      | cell i => exact ⟨fun k h => h, fun j2 ph h => h⟩
      | derived k =>
          rw [notify_succ_derived]
          by_cases hnd : (getDerived s k).dirty = true
          · rw [if_pos hnd]; exact ⟨fun k2 h => h, fun j2 ph h => h⟩
          · rw [if_neg hnd]
            have base : ∀ k2, (getDerived s k2).dirty = true →
                (getDerived (modifyDerived s k (fun d => { d with dirty := true })) k2).dirty = true := by
              intro k2 h
              by_cases hk : k = k2
              · subst hk; exact absurd h hnd
              · rw [getDerived_modify_ne s k k2 _ hk]; exact h
            constructor
            · intro k2 h
              exact foldl_preserve (notify fuel)
                (fun t => (getDerived t k2).dirty = true)
                (fun t x ht => ((ih x t).1) k2 ht) _ _ (base k2 h)
            · intro j2 ph h
              have hq : j2 ∈ queueOf (modifyDerived s k (fun d => { d with dirty := true })) ph := by
                cases ph <;> simpa [queueOf] using h
              exact foldl_preserve (notify fuel)
                (fun t => j2 ∈ queueOf t ph)
                (fun t x ht => ((ih x t).2) j2 ph ht) _ _ hq
      | effect k =>
          rw [notify_succ_effect]
          by_cases hnd : (getEffect s k).disposed = true
          · rw [if_pos hnd]; exact ⟨fun k2 h => h, fun j2 ph h => h⟩
          · rw [if_neg hnd]
            constructor
            · intro k2 h
              obtain ⟨_, _, _, _, _, hd⟩ := enqueue_notifyPres s k
              have hdk := dCore_cached _ _ (hd k2)
              by_cases hmem : k ∈ queueOf s ((getEffect s k).phase)
              · simpa [enqueueEffect, hmem] using h
              · simp only [enqueueEffect, hmem, if_neg]
                rw [getDerived_ext s _ (by simp) k2]
                exact h
            · intro j2 ph h
              exact mem_queue_enqueue s k j2 ph h

/-! ## Queue discipline and write propagation -/

theorem getCell_oob (s : Runtime) (k : Nat) (h : ¬ k < s.cells.length) :
    getCell s k = defCell := by
  unfold getCell
  rw [List.getD_eq_getElem?_getD, List.getElem?_eq_none (Nat.le_of_not_lt h)]
  rfl

theorem getDerived_oob (s : Runtime) (k : Nat) (h : ¬ k < s.deriveds.length) :
    getDerived s k = defDerived := by
  unfold getDerived
  rw [List.getD_eq_getElem?_getD, List.getElem?_eq_none (Nat.le_of_not_lt h)]
  rfl

theorem getEffect_oob (s : Runtime) (k : Nat) (h : ¬ k < s.effects.length) :
    getEffect s k = defEffect := by
  unfold getEffect
  rw [List.getD_eq_getElem?_getD, List.getElem?_eq_none (Nat.le_of_not_lt h)]
  rfl

theorem enqueue_self_mem (t : Runtime) (k : Nat) :
    k ∈ queueOf (enqueueEffect t k) ((getEffect t k).phase) := by
  by_cases hmem : k ∈ queueOf t ((getEffect t k).phase)
  · simp [enqueueEffect, hmem]
  · simp only [enqueueEffect, hmem, ite_false, if_false]
    rw [queueOf_setQueue_self]
    exact List.mem_append_right _ (by simp)

theorem enqueue_idem (t : Runtime) (k : Nat)
    (h : k ∈ queueOf t ((getEffect t k).phase)) : enqueueEffect t k = t := by
  simp [enqueueEffect, h]

theorem enqueue_nodup (s : Runtime) (j : Nat) (h : queuesNodup s) :
    queuesNodup (enqueueEffect s j) := by
  by_cases hmem : j ∈ queueOf s ((getEffect s j).phase)
  · simpa [enqueueEffect, hmem] using h
  · obtain ⟨h1, h2⟩ := h
    simp only [enqueueEffect, hmem, ite_false, if_false]
    cases hph : (getEffect s j).phase <;> rw [hph] at hmem <;>
      simp_all [setQueue, queuesNodup, queueOf, List.nodup_append]

theorem notify_nodup : ∀ (fuel : Nat) (r : NodeRef) (s : Runtime),
    queuesNodup s → queuesNodup (notify fuel s r) := by
  intro fuel
  induction fuel with
  | zero => intro r s h; exact h
  | succ fuel ih =>
      intro r s h
      cases r with
      | cell i => exact h
      | derived k =>
          rw [notify_succ_derived]
          by_cases hd : (getDerived s k).dirty = true
          · rw [if_pos hd]; exact h
          · rw [if_neg hd]
            refine foldl_preserve (notify fuel) queuesNodup (fun t x ht => ih x t ht) _ _ ?_
            obtain ⟨h1, h2⟩ := h
            exact ⟨by simpa using h1, by simpa using h2⟩
      | effect k =>
          rw [notify_succ_effect]
          by_cases hd : (getEffect s k).disposed = true
          · rw [if_pos hd]; exact h
          · rw [if_neg hd]; exact enqueue_nodup s k h

theorem writePres_refl (s : Runtime) : writePres s s :=
  ⟨rfl, rfl, rfl, rfl, rfl, fun _ => rfl, fun _ => rfl, fun _ => rfl, fun _ => rfl, fun _ => rfl⟩

theorem writePres_trans {s t u : Runtime} (h1 : writePres s t) (h2 : writePres t u) :
    writePres s u := by
  obtain ⟨a1, a2, a3, a4, a5, a6, a7, a8, a9, a10⟩ := h1
  obtain ⟨b1, b2, b3, b4, b5, b6, b7, b8, b9, b10⟩ := h2
  exact ⟨b1.trans a1, b2.trans a2, b3.trans a3, b4.trans a4, b5.trans a5,
    fun k => (b6 k).trans (a6 k), fun k => (b7 k).trans (a7 k),
    fun k => (b8 k).trans (a8 k), fun k => (b9 k).trans (a9 k),
    fun r => (b10 r).trans (a10 r)⟩

theorem writePres_of_notifyPres {s t : Runtime} (h : notifyPres s t) : writePres s t := by
  obtain ⟨hc, he, hx, hd, hl, hdc⟩ := h
  refine ⟨hx, hd, by rw [hc], hl, by rw [he], ?_, ?_, ?_, ?_, ?_⟩
  · exact fun k => dCore_formula _ _ (hdc k)
  · exact fun k => dCore_cached _ _ (hdc k)
  · exact fun k => dCore_runCount _ _ (hdc k)
  · intro k; rw [getEffect_ext s t he k]
  · exact notifyPres_depsOf ⟨hc, he, hx, hd, hl, hdc⟩

theorem modifyCell_writePres (s : Runtime) (i : Nat) (f : CellNode → CellNode) :
    writePres s (modifyCell s i f) := by
  refine ⟨rfl, rfl, by simp, rfl, rfl, fun _ => rfl, fun _ => rfl, fun _ => rfl, fun _ => rfl, ?_⟩
  intro r
  cases r <;> rfl

theorem writeCell_ok_pres (s : Runtime) (i v : Nat) (t : Runtime)
    (h : writeCell s i v = Except.ok t) : writePres s t := by
  unfold writeCell at h
  by_cases hd : isDerivedHead s = true
  · rw [if_pos hd] at h; cases h
  · rw [if_neg hd] at h
    simp only at h
    by_cases hv : v = (getCell s i).value
    · rw [if_pos hv] at h
      cases h
      exact modifyCell_writePres s i _
    · rw [if_neg hv] at h
      cases h
      refine foldl_preserve (notify _) (fun u => writePres s u)
        (fun u x hu => writePres_trans hu (writePres_of_notifyPres (notify_pres _ x u))) _ _
        (modifyCell_writePres s i _)

theorem writeCell_nodup (s : Runtime) (i v : Nat) (t : Runtime)
    (h : writeCell s i v = Except.ok t) (hn : queuesNodup s) : queuesNodup t := by
  unfold writeCell at h
  by_cases hd : isDerivedHead s = true
  · rw [if_pos hd] at h; cases h
  · rw [if_neg hd] at h
    simp only at h
    have hn1 : queuesNodup (modifyCell s i (fun c0 => { c0 with value := v, version := c0.version + 1 })) := by
      obtain ⟨h1, h2⟩ := hn
      exact ⟨by simpa using h1, by simpa using h2⟩
    by_cases hv : v = (getCell s i).value
    · rw [if_pos hv] at h; cases h; exact hn1
    · rw [if_neg hv] at h
      cases h
      exact foldl_preserve (notify _) queuesNodup (fun u x hu => notify_nodup _ x u hu) _ _ hn1

theorem applyWrite_nodup (s : Runtime) (w : Nat × Nat) (hn : queuesNodup s) :
    queuesNodup (applyWrite s w) := by
  unfold applyWrite
  cases hw : writeCell s w.1 w.2 with
  | ok t => exact writeCell_nodup s w.1 w.2 t hw hn
  | error e => exact hn

theorem applyWrites_nodup (s : Runtime) (ws : List (Nat × Nat)) (hn : queuesNodup s) :
    queuesNodup (applyWrites s ws) :=
  foldl_preserve applyWrite queuesNodup (fun t w ht => applyWrite_nodup t w ht) ws s hn

theorem writeCell_noop (s : Runtime) (i v : Nat)
    (hd : isDerivedHead s = false) (hv : v = (getCell s i).value) :
    writeCell s i v =
      Except.ok (modifyCell s i (fun c => { c with version := c.version + 1 })) := by
  unfold writeCell
  rw [hd]
  simp only [Bool.false_eq_true, if_false, ite_false]
  rw [if_pos hv]
  subst hv
  rfl

theorem writeCell_propagates (s : Runtime) (i v : Nat) (t : Runtime)
    (hne : v ≠ (getCell s i).value) (h : writeCell s i v = Except.ok t) :
    (∀ k, NodeRef.derived k ∈ (getCell s i).subscribers → (getDerived t k).dirty = true) ∧
    (∀ k, NodeRef.effect k ∈ (getCell s i).subscribers → (getEffect s k).disposed = false →
        k ∈ queueOf t ((getEffect s k).phase)) := by
  unfold writeCell at h
  by_cases hd : isDerivedHead s = true
  · rw [if_pos hd] at h; cases h
  · rw [if_neg hd] at h
    simp only at h
    rw [if_neg hne] at h
    cases h
    set s1 := modifyCell s i (fun c0 => { c0 with value := v, version := c0.version + 1 }) with hs1
    have heffs1 : s1.effects = s.effects := by simp [hs1]
    have hEst : ∀ u x, u.effects = s.effects →
        (match x with
          | NodeRef.cell _ => True
          | NodeRef.derived k => (getDerived (notify (notifyFuel s1) u x) k).dirty = true
          | NodeRef.effect k => (getEffect s k).disposed = false →
              k ∈ queueOf (notify (notifyFuel s1) u x) ((getEffect s k).phase) : Prop) := by
      intro u x hu
      cases x with
      | cell i2 => trivial
      | derived k =>
          show (getDerived (notify (notifyFuel s1) u (NodeRef.derived k)) k).dirty = true
          rw [show notifyFuel s1 = s1.deriveds.length + 1 from rfl, notify_succ_derived]
          by_cases hdk : (getDerived u k).dirty = true
          · rw [if_pos hdk]; exact hdk
          · rw [if_neg hdk]
            have hkrange : k < u.deriveds.length := by
              by_contra hoor
              rw [getDerived_oob u k hoor] at hdk
              exact hdk rfl
            have hbase : (getDerived (modifyDerived u k (fun d => { d with dirty := true })) k).dirty = true := by
              rw [getDerived_modify_self u k _ hkrange]
            exact foldl_preserve (notify s1.deriveds.length)
              (fun u2 => (getDerived u2 k).dirty = true)
              (fun u2 x2 hu2 => (notify_mono s1.deriveds.length x2 u2).1 k hu2) _ _ hbase
      | effect k =>
          show (getEffect s k).disposed = false →
            k ∈ queueOf (notify (notifyFuel s1) u (NodeRef.effect k)) ((getEffect s k).phase)
          intro hdisp
          have heq : getEffect u k = getEffect s k := getEffect_ext s u hu k
          rw [show notifyFuel s1 = s1.deriveds.length + 1 from rfl, notify_succ_effect]
          rw [heq, hdisp]
          simp only [Bool.false_eq_true, if_false, ite_false]
          have hmem := enqueue_self_mem u k
          rw [heq] at hmem
          exact hmem
    have hPres : ∀ u x y, u.effects = s.effects →
        (match y with
          | NodeRef.cell _ => True
          | NodeRef.derived k => (getDerived u k).dirty = true
          | NodeRef.effect k => (getEffect s k).disposed = false →
              k ∈ queueOf u ((getEffect s k).phase) : Prop) →
        (match y with
          | NodeRef.cell _ => True
          | NodeRef.derived k => (getDerived (notify (notifyFuel s1) u x) k).dirty = true
          | NodeRef.effect k => (getEffect s k).disposed = false →
              k ∈ queueOf (notify (notifyFuel s1) u x) ((getEffect s k).phase) : Prop) := by
      intro u x y hu hy
      cases y with
      | cell i2 => trivial
      | derived k => exact (notify_mono (notifyFuel s1) x u).1 k hy
      | effect k =>
          intro hdisp
          exact (notify_mono (notifyFuel s1) x u).2 k _ (hy hdisp)
    have hest := foldl_establish (notify (notifyFuel s1))
      (fun u => u.effects = s.effects)
      (fun u r => (match r with
        | NodeRef.cell _ => True
        | NodeRef.derived k => (getDerived u k).dirty = true
        | NodeRef.effect k => (getEffect s k).disposed = false →
            k ∈ queueOf u ((getEffect s k).phase) : Prop))
      (fun u x hu => ((notify_pres (notifyFuel s1) x u).2.1).trans hu)
      hEst hPres ((getCell s i).subscribers) s1 heffs1
    constructor
    · intro k hk
      exact hest (NodeRef.derived k) hk
    · intro k hk
      exact hest (NodeRef.effect k) hk

theorem writeCell_sets_value (s : Runtime) (i v : Nat) (t : Runtime)
    (hi : i < s.cells.length) (h : writeCell s i v = Except.ok t) :
    (getCell t i).value = v ∧ (getCell t i).version = (getCell s i).version + 1 := by
  unfold writeCell at h
  by_cases hd : isDerivedHead s = true
  · rw [if_pos hd] at h; cases h
  · rw [if_neg hd] at h
    simp only at h
    set s1 := modifyCell s i (fun c0 => { c0 with value := v, version := c0.version + 1 }) with hs1
    have hcell : getCell s1 i = { getCell s i with value := v, version := (getCell s i).version + 1 } := by
      rw [hs1, getCell_modify_self s i _ hi]
    by_cases hv : v = (getCell s i).value
    · rw [if_pos hv] at h
      rw [Except.ok.injEq] at h
      subst h
      rw [hcell]
      exact ⟨rfl, rfl⟩
    · rw [if_neg hv] at h
      rw [Except.ok.injEq] at h
      subst h
      have hcells : (((getCell s i).subscribers).foldl (notify (notifyFuel s1)) s1).cells = s1.cells :=
        foldl_preserve (notify (notifyFuel s1)) (fun u => u.cells = s1.cells)
          (fun u x hu => ((notify_pres (notifyFuel s1) x u).1).trans hu) _ _ rfl
      rw [getCell_ext s1 _ hcells i, hcell]
      exact ⟨rfl, rfl⟩

/-! ## Edge bookkeeping preserves the tracked state -/

theorem mem_of_headq {l : List NodeRef} {r : NodeRef} (h : l.head? = some r) : r ∈ l := by
  cases l with
  | nil => cases h
  | cons a l =>
      simp only [List.head?_cons, Option.some.injEq] at h
      subst h
      exact List.mem_cons_self _ _

theorem baseEq_refl (s : Runtime) : baseEq s s :=
  ⟨rfl, rfl, rfl, rfl, rfl, rfl, fun _ => rfl, fun _ => rfl, fun _ => rfl, fun _ => rfl⟩

theorem baseEq_trans {s t u : Runtime} (h1 : baseEq s t) (h2 : baseEq t u) : baseEq s u := by
  obtain ⟨a1, a2, a3, a4, a5, a6, a7, a8, a9, a10⟩ := h1
  obtain ⟨b1, b2, b3, b4, b5, b6, b7, b8, b9, b10⟩ := h2
  exact ⟨b1.trans a1, b2.trans a2, b3.trans a3, b4.trans a4, b5.trans a5, b6.trans a6,
    fun k => (b7 k).trans (a7 k), fun k => (b8 k).trans (a8 k),
    fun k => (b9 k).trans (a9 k), fun k => (b10 k).trans (a10 k)⟩

theorem trackPres_refl (s : Runtime) : trackPres s s :=
  ⟨rfl, baseEq_refl s, fun _ => rfl⟩

theorem trackPres_trans {s t u : Runtime} (h1 : trackPres s t) (h2 : trackPres t u) :
    trackPres s u :=
  ⟨h2.1.trans h1.1, baseEq_trans h1.2.1 h2.2.1,
    fun k => (h2.2.2 k).trans (h1.2.2 k)⟩

theorem refOk_of_trackPres {s t : Runtime} (h : trackPres s t) (r : NodeRef) :
    refOk t r = refOk s r := by
  obtain ⟨_, ⟨_, _, _, _, hld, hle, _⟩, _⟩ := h
  cases r <;> simp [refOk, hld, hle]

theorem ctxOk_of_trackPres {s t : Runtime} (h : trackPres s t) (hok : ctxOk s) : ctxOk t := by
  have hctx := h.1
  refine ⟨by rw [hctx]; exact hok.1, ?_⟩
  intro r hr
  rw [refOk_of_trackPres h r]
  exact hok.2 r (by rwa [hctx] at hr)

theorem modifyCell_trackPres (s : Runtime) (i : Nat) (f : CellNode → CellNode)
    (hval : ∀ c, (f c).value = c.value) (hver : ∀ c, (f c).version = c.version) :
    trackPres s (modifyCell s i f) := by
  refine ⟨rfl, ⟨rfl, rfl, rfl, by simp, rfl, rfl, ?_, ?_, fun _ => rfl, fun _ => rfl⟩, fun _ => rfl⟩
  · exact getCell_modify_proj s i f (fun c => c.value) (hval _)
  · exact getCell_modify_proj s i f (fun c => c.version) (hver _)

theorem modifyDerived_trackPres (s : Runtime) (i : Nat) (f : DerivedNode → DerivedNode)
    (hdcr : ∀ d, dcr (f d) = dcr d) (hform : ∀ d, (f d).formula = d.formula) :
    trackPres s (modifyDerived s i f) := by
  refine ⟨rfl, ⟨rfl, rfl, rfl, rfl, by simp, rfl, fun _ => rfl, fun _ => rfl, ?_, fun _ => rfl⟩, ?_⟩
  · exact getDerived_modify_proj s i f (fun d => d.formula) (hform _)
  · exact getDerived_modify_proj s i f dcr (hdcr _)

theorem modifyEffect_trackPres (s : Runtime) (i : Nat) (f : EffectNode → EffectNode)
    (hcore : ∀ e, effCore (f e) = effCore e) :
    trackPres s (modifyEffect s i f) := by
  refine ⟨rfl, ⟨rfl, rfl, rfl, rfl, rfl, by simp, fun _ => rfl, fun _ => rfl, fun _ => rfl, ?_⟩, fun _ => rfl⟩
  exact getEffect_modify_proj s i f effCore (hcore _)

theorem addSubscriber_trackPres (s : Runtime) (src sub : NodeRef) :
    trackPres s (addSubscriber s src sub) := by
  cases src with
  | cell i => exact modifyCell_trackPres s i _ (fun _ => rfl) (fun _ => rfl)
  | derived i => exact modifyDerived_trackPres s i _ (fun _ => rfl) (fun _ => rfl)
  | effect i => exact trackPres_refl s

theorem addDepTo_trackPres (s : Runtime) (r src : NodeRef) :
    trackPres s (addDepTo s r src) := by
  cases r with
  | cell i => exact trackPres_refl s
  | derived k => exact modifyDerived_trackPres s k _ (fun _ => rfl) (fun _ => rfl)
  | effect k => exact modifyEffect_trackPres s k _ (fun _ => rfl)

theorem removeSub_trackPres (s : Runtime) (src r : NodeRef) :
    trackPres s (removeSub s src r) := by
  cases src with
  | cell i => exact modifyCell_trackPres s i _ (fun _ => rfl) (fun _ => rfl)
  | derived i => exact modifyDerived_trackPres s i _ (fun _ => rfl) (fun _ => rfl)
  | effect i => exact trackPres_refl s

theorem setDeps_trackPres (s : Runtime) (r : NodeRef) (l : List NodeRef) :
    trackPres s (setDeps s r l) := by
  cases r with
  | cell i => exact trackPres_refl s
  | derived k => exact modifyDerived_trackPres s k _ (fun _ => rfl) (fun _ => rfl)
  | effect k => exact modifyEffect_trackPres s k _ (fun _ => rfl)

theorem registerRead_trackPres (s : Runtime) (src : NodeRef) :
    trackPres s (registerRead s src) := by
  unfold registerRead
  cases hh : s.ctx.head? with
  | none => exact trackPres_refl s
  | some r =>
      exact trackPres_trans (addSubscriber_trackPres s src r)
        (addDepTo_trackPres (addSubscriber s src r) r src)

theorem clearDeps_trackPres (s : Runtime) (r : NodeRef) :
    trackPres s (clearDeps s r) := by
  unfold clearDeps
  refine trackPres_trans ?_ (setDeps_trackPres _ r [])
  exact foldl_preserve (fun t src => removeSub t src r) (fun t => trackPres s t)
    (fun t x ht => trackPres_trans ht (removeSub_trackPres t x r)) _ _ (trackPres_refl s)

/-! ## Edge bookkeeping: effect on dependency sets -/

theorem depsOf_modifyCell (s : Runtime) (i : Nat) (f : CellNode → CellNode) (r : NodeRef) :
    depsOf (modifyCell s i f) r = depsOf s r := by
  cases r <;> rfl

theorem depsOf_modifyDerived_other (s : Runtime) (k : Nat) (f : DerivedNode → DerivedNode)
    (r : NodeRef) (h : r ≠ NodeRef.derived k) :
    depsOf (modifyDerived s k f) r = depsOf s r := by
  cases r with
  | cell i => rfl
  | derived k2 =>
      have : k ≠ k2 := fun he => h (by rw [he])
      simp [depsOf, getDerived_modify_ne s k k2 f this]
  | effect k2 => rfl

theorem depsOf_modifyDerived_self (s : Runtime) (k : Nat) (f : DerivedNode → DerivedNode)
    (h : k < s.deriveds.length) :
    depsOf (modifyDerived s k f) (NodeRef.derived k) = (f (getDerived s k)).deps := by
  simp [depsOf, getDerived_modify_self s k f h]

theorem depsOf_modifyEffect_other (s : Runtime) (k : Nat) (f : EffectNode → EffectNode)
    (r : NodeRef) (h : r ≠ NodeRef.effect k) :
    depsOf (modifyEffect s k f) r = depsOf s r := by
  cases r with
  | cell i => rfl
  | derived k2 => rfl
  | effect k2 =>
      have : k ≠ k2 := fun he => h (by rw [he])
      simp [depsOf, getEffect_modify_ne s k k2 f this]

theorem depsOf_modifyEffect_self (s : Runtime) (k : Nat) (f : EffectNode → EffectNode)
    (h : k < s.effects.length) :
    depsOf (modifyEffect s k f) (NodeRef.effect k) = (f (getEffect s k)).deps := by
  simp [depsOf, getEffect_modify_self s k f h]

theorem depsOf_modifyDerived_subs (s : Runtime) (i : Nat) (f : DerivedNode → DerivedNode)
    (hdeps : (f (getDerived s i)).deps = (getDerived s i).deps) (r : NodeRef) :
    depsOf (modifyDerived s i f) r = depsOf s r := by
  cases r with
  | cell i2 => rfl
  | derived k2 => exact getDerived_modify_proj s i f (fun d => d.deps) hdeps k2
  | effect k2 => rfl

theorem depsOf_addSubscriber (s : Runtime) (src sub : NodeRef) (r : NodeRef) :
    depsOf (addSubscriber s src sub) r = depsOf s r := by
  cases src with
  | cell i => exact depsOf_modifyCell s i _ r
  | derived i => exact depsOf_modifyDerived_subs s i _ rfl r
  | effect i => rfl

theorem depsOf_addDepTo_other (s : Runtime) (r0 src : NodeRef) (r : NodeRef)
    (h : r ≠ r0) : depsOf (addDepTo s r0 src) r = depsOf s r := by
  cases r0 with
  | cell i => rfl
  | derived k => exact depsOf_modifyDerived_other s k _ r h
  | effect k => exact depsOf_modifyEffect_other s k _ r h

theorem depsOf_addDepTo_self (s : Runtime) (r0 src : NodeRef)
    (hr : refOk s r0 = true) : depsOf (addDepTo s r0 src) r0 = insertRef (depsOf s r0) src := by
  cases r0 with
  | cell i => simp [refOk] at hr
  | derived k =>
      have hk : k < s.deriveds.length := by simpa [refOk] using hr
      rw [show addDepTo s (NodeRef.derived k) src
          = modifyDerived s k (fun d => { d with deps := insertRef d.deps src }) from rfl]
      rw [depsOf_modifyDerived_self s k _ hk]
      rfl
  | effect k =>
      have hk : k < s.effects.length := by simpa [refOk] using hr
      rw [show addDepTo s (NodeRef.effect k) src
          = modifyEffect s k (fun e => { e with deps := insertRef e.deps src }) from rfl]
      rw [depsOf_modifyEffect_self s k _ hk]
      rfl

theorem registerRead_deps_none (s : Runtime) (src : NodeRef) (h : s.ctx.head? = none) :
    registerRead s src = s := by
  simp [registerRead, h]

theorem registerRead_deps_head (s : Runtime) (src r : NodeRef)
    (h : s.ctx.head? = some r) (hr : refOk s r = true) :
    depsOf (registerRead s src) r = insertRef (depsOf s r) src := by
  unfold registerRead
  rw [h]
  have h1 : depsOf (addSubscriber s src r) r = depsOf s r := depsOf_addSubscriber s src r r
  have hr1 : refOk (addSubscriber s src r) r = refOk s r :=
    refOk_of_trackPres (addSubscriber_trackPres s src r) r
  rw [depsOf_addDepTo_self _ r src (by rw [hr1]; exact hr), h1]

theorem registerRead_deps_other (s : Runtime) (src : NodeRef) (r : NodeRef)
    (h : ∀ r0, s.ctx.head? = some r0 → r ≠ r0) :
    depsOf (registerRead s src) r = depsOf s r := by
  unfold registerRead
  cases hh : s.ctx.head? with
  | none => rfl
  | some r0 =>
      rw [depsOf_addDepTo_other _ r0 src r (h r0 hh), depsOf_addSubscriber s src r0 r]

theorem depsOf_removeSub (s : Runtime) (src r0 : NodeRef) (r : NodeRef) :
    depsOf (removeSub s src r0) r = depsOf s r := by
  cases src with
  | cell i => exact depsOf_modifyCell s i _ r
  | derived i => exact depsOf_modifyDerived_subs s i _ rfl r
  | effect i => rfl

theorem depsOf_setDeps_other (s : Runtime) (r0 : NodeRef) (l : List NodeRef) (r : NodeRef)
    (h : r ≠ r0) : depsOf (setDeps s r0 l) r = depsOf s r := by
  cases r0 with
  | cell i => rfl
  | derived k => exact depsOf_modifyDerived_other s k _ r h
  | effect k => exact depsOf_modifyEffect_other s k _ r h

theorem depsOf_setDeps_self (s : Runtime) (r0 : NodeRef) (l : List NodeRef)
    (hr : refOk s r0 = true) : depsOf (setDeps s r0 l) r0 = l := by
  cases r0 with
  | cell i => simp [refOk] at hr
  | derived k =>
      have hk : k < s.deriveds.length := by simpa [refOk] using hr
      rw [show setDeps s (NodeRef.derived k) l
          = modifyDerived s k (fun d => { d with deps := l }) from rfl]
      rw [depsOf_modifyDerived_self s k _ hk]
  | effect k =>
      have hk : k < s.effects.length := by simpa [refOk] using hr
      rw [show setDeps s (NodeRef.effect k) l
          = modifyEffect s k (fun e => { e with deps := l }) from rfl]
      rw [depsOf_modifyEffect_self s k _ hk]

theorem clearDeps_deps_other (s : Runtime) (r0 : NodeRef) (r : NodeRef) (h : r ≠ r0) :
    depsOf (clearDeps s r0) r = depsOf s r := by
  unfold clearDeps
  rw [depsOf_setDeps_other _ r0 [] r h]
  exact foldl_preserve (fun t src => removeSub t src r0) (fun t => depsOf t r = depsOf s r)
    (fun t x ht => (depsOf_removeSub t x r0 r).trans ht) _ _ rfl

theorem clearDeps_deps_self (s : Runtime) (r0 : NodeRef) (hr : refOk s r0 = true) :
    depsOf (clearDeps s r0) r0 = [] := by
  unfold clearDeps
  have hpres : trackPres s ((depsOf s r0).foldl (fun t src => removeSub t src r0) s) :=
    foldl_preserve (fun t src => removeSub t src r0) (fun t => trackPres s t)
      (fun t x ht => trackPres_trans ht (removeSub_trackPres t x r0)) _ _ (trackPres_refl s)
  rw [depsOf_setDeps_self _ r0 [] (by rw [refOk_of_trackPres hpres r0]; exact hr)]

/-! ## Equation lemmas for the tracked evaluator -/

theorem evalE_lit (recur : Runtime → Expr → Except RTError (Runtime × Nat))
    (s : Runtime) (n : Nat) : evalE recur s (Expr.lit n) = Except.ok (s, n) := rfl

theorem evalE_add (recur : Runtime → Expr → Except RTError (Runtime × Nat))
    (s : Runtime) (a b : Expr) :
    evalE recur s (Expr.add a b) =
      Except.bind (evalE recur s a) (fun p =>
        Except.bind (evalE recur p.1 b) (fun q =>
          Except.ok (q.1, p.2 + q.2))) := rfl

theorem evalE_readCell (recur : Runtime → Expr → Except RTError (Runtime × Nat))
    (s : Runtime) (i : Nat) :
    evalE recur s (Expr.readCell i) =
      Except.ok (registerRead s (NodeRef.cell i), (getCell s i).value) := rfl

theorem evalE_readDerived (recur : Runtime → Expr → Except RTError (Runtime × Nat))
    (s : Runtime) (i : Nat) :
    evalE recur s (Expr.readDerived i) =
      (if NodeRef.derived i ∈ s.ctx then Except.error RTError.dependencyCycle
       else if i < s.deriveds.length then
         if (getDerived s i).dirty then readDirty recur s i
         else Except.ok (registerRead s (NodeRef.derived i),
           (getDerived s i).cachedValue.getD 0)
       else Except.ok (s, 0)) := rfl

theorem evalExpr_zero : evalExpr 0 = evalE (fun _ _ => Except.error RTError.fuelExhausted) := rfl

theorem evalExpr_succ (fuel : Nat) : evalExpr (fuel + 1) = evalE (evalExpr fuel) := rfl

theorem evalExpr_as_evalE (fuel : Nat) :
    ∃ recur, evalExpr fuel = evalE recur := by
  cases fuel with
  | zero => exact ⟨_, rfl⟩
  | succ fuel => exact ⟨_, rfl⟩

/-! ## Postcondition of one successful tracked evaluation -/

theorem refOk_of_baseEq {s t : Runtime} (hb : baseEq s t) (r : NodeRef) :
    refOk t r = refOk s r := by
  obtain ⟨_, _, _, _, hld, hle, _⟩ := hb
  cases r <;> simp [refOk, hld, hle]

theorem ctxOk_transport {s t : Runtime} (hctx : t.ctx = s.ctx) (hb : baseEq s t)
    (hok : ctxOk s) : ctxOk t := by
  refine ⟨by rw [hctx]; exact hok.1, ?_⟩
  intro r hr
  rw [refOk_of_baseEq hb r]
  exact hok.2 r (by rwa [hctx] at hr)

theorem baseEq_pushCtx (s : Runtime) (r : NodeRef) : baseEq s (pushCtx s r) :=
  ⟨rfl, rfl, rfl, rfl, rfl, rfl, fun _ => rfl, fun _ => rfl, fun _ => rfl, fun _ => rfl⟩

theorem baseEq_popCtx (s : Runtime) : baseEq s (popCtx s) :=
  ⟨rfl, rfl, rfl, rfl, rfl, rfl, fun _ => rfl, fun _ => rfl, fun _ => rfl, fun _ => rfl⟩

theorem modifyDerived_baseEq (s : Runtime) (i : Nat) (f : DerivedNode → DerivedNode)
    (hform : (f (getDerived s i)).formula = (getDerived s i).formula) :
    baseEq s (modifyDerived s i f) := by
  refine ⟨rfl, rfl, rfl, rfl, by simp, rfl, fun _ => rfl, fun _ => rfl, ?_, fun _ => rfl⟩
  exact getDerived_modify_proj s i f (fun d => d.formula) hform

theorem evalOk_of_trackPres {s t : Runtime} {e : Expr} (h : trackPres s t)
    (hdeps : ctxOk s → ∀ r ∈ s.ctx, depsOf t r =
      (if s.ctx.head? = some r then collectReads s.deriveds.length e (depsOf s r)
       else depsOf s r)) : EvalOk s e t :=
  ⟨h.1, h.2.1, fun k _ => h.2.2 k, hdeps⟩

theorem evalOk_lit (s : Runtime) (n : Nat) : EvalOk s (Expr.lit n) s := by
  refine evalOk_of_trackPres (trackPres_refl s) ?_
  intro _ r _
  show depsOf s r = if s.ctx.head? = some r then depsOf s r else depsOf s r
  rw [ite_self]

theorem evalOk_add {s s1 s2 : Runtime} {a b : Expr}
    (ha : EvalOk s a s1) (hb : EvalOk s1 b s2) : EvalOk s (Expr.add a b) s2 := by
  obtain ⟨hc1, hb1, hd1, hp1⟩ := ha
  obtain ⟨hc2, hb2, hd2, hp2⟩ := hb
  refine ⟨hc2.trans hc1, baseEq_trans hb1 hb2, ?_, ?_⟩
  · intro k hk
    exact (hd2 k (by rwa [hc1])).trans (hd1 k hk)
  · intro hok r hr
    have hok1 : ctxOk s1 := ctxOk_transport hc1 hb1 hok
    have hr1 : r ∈ s1.ctx := by rwa [hc1]
    have hnD : s1.deriveds.length = s.deriveds.length := hb1.2.2.2.2.1
    have h2 := hp2 hok1 r hr1
    rw [hc1, hnD] at h2
    by_cases hh : s.ctx.head? = some r
    · rw [if_pos hh] at h2 ⊢
      rw [h2, hp1 hok r hr, if_pos hh]
      rfl
    · rw [if_neg hh] at h2 ⊢
      rw [h2, hp1 hok r hr, if_neg hh]

theorem head_ne_of_if {s : Runtime} {r : NodeRef} (hh : ¬ s.ctx.head? = some r) :
    ∀ r0, s.ctx.head? = some r0 → r ≠ r0 := by
  intro r0 h0 hrr
  exact hh (by rw [hrr, h0])

theorem evalOk_readCell (s : Runtime) (i : Nat) :
    EvalOk s (Expr.readCell i) (registerRead s (NodeRef.cell i)) := by
  refine evalOk_of_trackPres (registerRead_trackPres s _) ?_
  intro hok r hr
  by_cases hh : s.ctx.head? = some r
  · rw [if_pos hh, registerRead_deps_head s _ r hh (hok.2 r (mem_of_headq hh))]
    rfl
  · rw [if_neg hh]
    exact registerRead_deps_other s _ r (head_ne_of_if hh)

theorem evalOk_readDerived_clean (s : Runtime) (i : Nat) (hi : i < s.deriveds.length) :
    EvalOk s (Expr.readDerived i) (registerRead s (NodeRef.derived i)) := by
  refine evalOk_of_trackPres (registerRead_trackPres s _) ?_
  intro hok r hr
  have hcol : collectReads s.deriveds.length (Expr.readDerived i) (depsOf s r)
      = insertRef (depsOf s r) (NodeRef.derived i) := by
    simp [collectReads, hi]
  by_cases hh : s.ctx.head? = some r
  · rw [if_pos hh, registerRead_deps_head s _ r hh (hok.2 r (mem_of_headq hh)), hcol]
  · rw [if_neg hh]
    exact registerRead_deps_other s _ r (head_ne_of_if hh)

theorem evalOk_readDerived_oob (s : Runtime) (i : Nat) (hi : ¬ i < s.deriveds.length) :
    EvalOk s (Expr.readDerived i) s := by
  refine evalOk_of_trackPres (trackPres_refl s) ?_
  intro _ r _
  have hcol : collectReads s.deriveds.length (Expr.readDerived i) (depsOf s r)
      = depsOf s r := by
    simp [collectReads, hi]
  rw [hcol, ite_self]

theorem evalOk_readDerived_dirty (s s3 : Runtime) (i : Nat) (v : Nat)
    (hi : i < s.deriveds.length) (hnotin : NodeRef.derived i ∉ s.ctx)
    (hrec : EvalOk (pushCtx (clearDeps s (NodeRef.derived i)) (NodeRef.derived i))
      ((getDerived s i).formula) s3) :
    EvalOk s (Expr.readDerived i)
      (registerRead (modifyDerived (popCtx s3) i
        (fun d2 => { d2 with cachedValue := some v, dirty := false, runCount := d2.runCount + 1 }))
        (NodeRef.derived i)) := by
  obtain ⟨hc3, hb3, hd3, hp3⟩ := hrec
  have hclear := clearDeps_trackPres s (NodeRef.derived i)
  have hsc_ctx : (clearDeps s (NodeRef.derived i)).ctx = s.ctx := hclear.1
  have hs2ctx : (pushCtx (clearDeps s (NodeRef.derived i)) (NodeRef.derived i)).ctx
      = NodeRef.derived i :: s.ctx := by
    rw [pushCtx_ctx, hsc_ctx]
  have hs3ctx : s3.ctx = NodeRef.derived i :: s.ctx := by rw [hc3, hs2ctx]
  have hpopctx : (popCtx s3).ctx = s.ctx := by rw [popCtx_ctx, hs3ctx]; rfl
  have hbs2 : baseEq s (pushCtx (clearDeps s (NodeRef.derived i)) (NodeRef.derived i)) :=
    baseEq_trans hclear.2.1 (baseEq_pushCtx _ _)
  have hbs3 : baseEq s s3 := baseEq_trans hbs2 hb3
  have hbpop : baseEq s (popCtx s3) := baseEq_trans hbs3 (baseEq_popCtx s3)
  have hbs4 : baseEq s (modifyDerived (popCtx s3) i
      (fun d2 => { d2 with cachedValue := some v, dirty := false, runCount := d2.runCount + 1 })) := by
    refine baseEq_trans hbpop (modifyDerived_baseEq (popCtx s3) i _ rfl)
  have hrr := registerRead_trackPres (modifyDerived (popCtx s3) i
      (fun d2 => { d2 with cachedValue := some v, dirty := false, runCount := d2.runCount + 1 }))
      (NodeRef.derived i)
  have hs4ctx : (modifyDerived (popCtx s3) i
      (fun d2 => { d2 with cachedValue := some v, dirty := false, runCount := d2.runCount + 1 })).ctx
      = s.ctx := by rw [modifyDerived_ctx, hpopctx]
  refine ⟨?_, baseEq_trans hbs4 hrr.2.1, ?_, ?_⟩
  · rw [hrr.1, hs4ctx]
  · intro k hk
    have hki : k ≠ i := fun he => hnotin (by rwa [he] at hk)
    have e1 := hrr.2.2 k
    have e2 : getDerived (modifyDerived (popCtx s3) i
        (fun d2 => { d2 with cachedValue := some v, dirty := false, runCount := d2.runCount + 1 })) k
        = getDerived (popCtx s3) k := getDerived_modify_ne (popCtx s3) i k _ (fun he => hki he.symm)
    have e3 : getDerived (popCtx s3) k = getDerived s3 k := rfl
    have e4 : dcr (getDerived s3 k) = dcr (getDerived
        (pushCtx (clearDeps s (NodeRef.derived i)) (NodeRef.derived i)) k) := by
      refine hd3 k ?_
      rw [hs2ctx]
      exact List.mem_cons_of_mem _ hk
    have e5 : getDerived (pushCtx (clearDeps s (NodeRef.derived i)) (NodeRef.derived i)) k
        = getDerived (clearDeps s (NodeRef.derived i)) k := rfl
    have e6 : dcr (getDerived (clearDeps s (NodeRef.derived i)) k) = dcr (getDerived s k) :=
      hclear.2.2 k
    rw [e1, e2, e3, e4, e5, e6]
  · intro hok r hr
    have hne_r : r ≠ NodeRef.derived i := fun he => hnotin (by rwa [he] at hr)
    have hok2 : ctxOk (pushCtx (clearDeps s (NodeRef.derived i)) (NodeRef.derived i)) := by
      constructor
      · rw [hs2ctx]
        exact List.nodup_cons.mpr ⟨hnotin, hok.1⟩
      · intro r2 hr2
        rw [hs2ctx] at hr2
        rcases List.mem_cons.mp hr2 with h2a | h2b
        · subst h2a
          have hlen2 : (clearDeps s (NodeRef.derived i)).deriveds.length
              = s.deriveds.length := hclear.2.1.2.2.2.2.1
          simp [refOk, hlen2, hi]
        · rw [refOk_of_baseEq hbs2 r2]
          exact hok.2 r2 h2b
    have h3 := hp3 hok2 r (by rw [hs2ctx]; exact List.mem_cons_of_mem _ hr)
    rw [hs2ctx] at h3
    rw [if_neg (by
      simp only [List.head?_cons, Option.some.injEq]
      exact fun he => hne_r he.symm)] at h3
    have hdeps_s2 : depsOf (pushCtx (clearDeps s (NodeRef.derived i)) (NodeRef.derived i)) r
        = depsOf s r := by
      have : depsOf (pushCtx (clearDeps s (NodeRef.derived i)) (NodeRef.derived i)) r
          = depsOf (clearDeps s (NodeRef.derived i)) r := by cases r <;> rfl
      rw [this, clearDeps_deps_other s _ r hne_r]
    have hdeps_pop : depsOf (popCtx s3) r = depsOf s3 r := by cases r <;> rfl
    have hdeps_s4 : depsOf (modifyDerived (popCtx s3) i
        (fun d2 => { d2 with cachedValue := some v, dirty := false, runCount := d2.runCount + 1 })) r
        = depsOf s r := by
      rw [depsOf_modifyDerived_other (popCtx s3) i _ r hne_r, hdeps_pop, h3, hdeps_s2]
    have hcol : collectReads s.deriveds.length (Expr.readDerived i) (depsOf s r)
        = insertRef (depsOf s r) (NodeRef.derived i) := by
      simp [collectReads, hi]
    by_cases hh : s.ctx.head? = some r
    · rw [if_pos hh, hcol]
      rw [registerRead_deps_head _ _ r (by rw [hs4ctx]; exact hh)
        (by rw [refOk_of_baseEq hbs4 r]; exact hok.2 r hr), hdeps_s4]
    · rw [if_neg hh]
      rw [registerRead_deps_other _ _ r (by
        rw [hs4ctx]
        exact head_ne_of_if hh), hdeps_s4]

theorem evalE_evalok (recur : Runtime → Expr → Except RTError (Runtime × Nat))
    (Hr : ∀ s f t v, recur s f = Except.ok (t, v) → EvalOk s f t) :
    ∀ (e : Expr) (s t : Runtime) (v : Nat),
      evalE recur s e = Except.ok (t, v) → EvalOk s e t := by
  intro e
  induction e with
  | lit n =>
      intro s t v h
      rw [evalE_lit, Except.ok.injEq, Prod.mk.injEq] at h
      rw [← h.1]
      exact evalOk_lit s n
  | add a b iha ihb =>
      intro s t v h
      rw [evalE_add] at h
      cases ha : evalE recur s a with
      | error err =>
          rw [ha] at h
          simp only [Except.bind] at h
          exact Except.noConfusion h
      | ok p =>
          rw [ha] at h
          obtain ⟨s1, va⟩ := p
          simp only [Except.bind] at h
          cases hb : evalE recur s1 b with
          | error err =>
              rw [hb] at h
              simp only [Except.bind] at h
              exact Except.noConfusion h
          | ok q =>
              obtain ⟨s2, vb⟩ := q
              rw [hb] at h
              simp only [Except.bind, Except.ok.injEq, Prod.mk.injEq] at h
              rw [← h.1]
              exact evalOk_add (iha s s1 va ha) (ihb s1 s2 vb hb)
  | readCell i =>
      intro s t v h
      rw [evalE_readCell, Except.ok.injEq, Prod.mk.injEq] at h
      rw [← h.1]
      exact evalOk_readCell s i
  | readDerived i =>
      intro s t v h
      rw [evalE_readDerived] at h
      by_cases hmem : NodeRef.derived i ∈ s.ctx
      · rw [if_pos hmem] at h; cases h
      · rw [if_neg hmem] at h
        by_cases hi : i < s.deriveds.length
        · rw [if_pos hi] at h
          by_cases hd : (getDerived s i).dirty = true
          · rw [if_pos hd] at h
            unfold readDirty at h
            cases hrec : recur (pushCtx (clearDeps s (NodeRef.derived i)) (NodeRef.derived i))
                (getDerived s i).formula with
            | error err =>
                rw [hrec] at h
                simp only [Except.bind] at h
                exact Except.noConfusion h
            | ok p =>
                rw [hrec] at h
                obtain ⟨s3, v3⟩ := p
                simp only [Except.bind, Except.ok.injEq, Prod.mk.injEq] at h
                rw [← h.1]
                exact evalOk_readDerived_dirty s s3 i v3 hi hmem (Hr _ _ _ _ hrec)
          · rw [if_neg hd] at h
            rw [Except.ok.injEq, Prod.mk.injEq] at h
            rw [← h.1]
            exact evalOk_readDerived_clean s i hi
        · rw [if_neg hi] at h
          rw [Except.ok.injEq, Prod.mk.injEq] at h
          rw [← h.1]
          exact evalOk_readDerived_oob s i hi

theorem evalExpr_evalok : ∀ (fuel : Nat) (e : Expr) (s t : Runtime) (v : Nat),
    evalExpr fuel s e = Except.ok (t, v) → EvalOk s e t := by
  intro fuel
  induction fuel with
  | zero =>
      intro e s t v h
      exact evalE_evalok _ (fun s2 f t2 v2 h0 => by cases h0) e s t v h
  | succ fuel ih =>
      intro e s t v h
      exact evalE_evalok _ (fun s2 f t2 v2 h0 => ih f s2 t2 v2 h0) e s t v h

/-! ## Shape of a successful dirty read -/

theorem readDerived_dirty_shape (fuel : Nat) (s t : Runtime) (i : Nat) (v : Nat)
    (hd : (getDerived s i).dirty = true) (hi : i < s.deriveds.length)
    (h : evalExpr fuel s (Expr.readDerived i) = Except.ok (t, v)) :
    ∃ s3, NodeRef.derived i ∉ s.ctx ∧
      evalExpr (fuel - 1) (pushCtx (clearDeps s (NodeRef.derived i)) (NodeRef.derived i))
        (getDerived s i).formula = Except.ok (s3, v) ∧
      t = registerRead (modifyDerived (popCtx s3) i
        (fun d2 => { d2 with cachedValue := some v, dirty := false, runCount := d2.runCount + 1 }))
        (NodeRef.derived i) := by
  cases fuel with
  | zero =>
      rw [evalExpr_zero, evalE_readDerived] at h
      by_cases hmem : NodeRef.derived i ∈ s.ctx
      · rw [if_pos hmem] at h; cases h
      · rw [if_neg hmem, if_pos hi, if_pos hd] at h
        unfold readDirty at h
        simp only [Except.bind] at h
        exact Except.noConfusion h
  | succ fuel =>
      rw [evalExpr_succ, evalE_readDerived] at h
      by_cases hmem : NodeRef.derived i ∈ s.ctx
      · rw [if_pos hmem] at h; cases h
      · rw [if_neg hmem, if_pos hi, if_pos hd] at h
        unfold readDirty at h
        cases hrec : evalExpr fuel (pushCtx (clearDeps s (NodeRef.derived i)) (NodeRef.derived i))
            (getDerived s i).formula with
        | error err =>
            rw [hrec] at h
            simp only [Except.bind] at h
            exact Except.noConfusion h
        | ok p =>
            rw [hrec] at h
            obtain ⟨s3, v3⟩ := p
            simp only [Except.bind, Except.ok.injEq, Prod.mk.injEq] at h
            obtain ⟨h1, h2⟩ := h
            subst h2
            exact ⟨s3, hmem, by simpa using hrec, h1.symm⟩

theorem dcr_dirtyEq (d1 d2 : DerivedNode) (h : dcr d1 = dcr d2) : d1.dirty = d2.dirty := by
  simpa [dcr] using congrArg (fun p => p.1) h

theorem dcr_cachedEq (d1 d2 : DerivedNode) (h : dcr d1 = dcr d2) :
    d1.cachedValue = d2.cachedValue := by
  simpa [dcr] using congrArg (fun p => p.2.1) h

theorem dcr_runCountEq (d1 d2 : DerivedNode) (h : dcr d1 = dcr d2) :
    d1.runCount = d2.runCount := by
  simpa [dcr] using congrArg (fun p => p.2.2) h

theorem ctxOk_prep (s : Runtime) (i : Nat) (hok : ctxOk s) (hi : i < s.deriveds.length)
    (hmem : NodeRef.derived i ∉ s.ctx) :
    ctxOk (pushCtx (clearDeps s (NodeRef.derived i)) (NodeRef.derived i)) := by
  have hclear := clearDeps_trackPres s (NodeRef.derived i)
  have hs2ctx : (pushCtx (clearDeps s (NodeRef.derived i)) (NodeRef.derived i)).ctx
      = NodeRef.derived i :: s.ctx := by rw [pushCtx_ctx, hclear.1]
  constructor
  · rw [hs2ctx]
    exact List.nodup_cons.mpr ⟨hmem, hok.1⟩
  · intro r2 hr2
    rw [hs2ctx] at hr2
    rcases List.mem_cons.mp hr2 with h2a | h2b
    · subst h2a
      have hlen2 : (clearDeps s (NodeRef.derived i)).deriveds.length
          = s.deriveds.length := hclear.2.1.2.2.2.2.1
      simp [refOk, hlen2, hi]
    · rw [refOk_of_baseEq (baseEq_trans hclear.2.1 (baseEq_pushCtx _ _)) r2]
      exact hok.2 r2 h2b

theorem read_dirty_memo (fuel : Nat) (s t : Runtime) (i v : Nat)
    (hd : (getDerived s i).dirty = true) (hi : i < s.deriveds.length)
    (h : evalExpr fuel s (Expr.readDerived i) = Except.ok (t, v)) :
    (getDerived t i).runCount = (getDerived s i).runCount + 1 ∧
    (getDerived t i).dirty = false ∧
    (getDerived t i).cachedValue = some v := by
  obtain ⟨s3, hmem, hrec, ht⟩ := readDerived_dirty_shape fuel s t i v hd hi h
  obtain ⟨hc3, hb3, hd3, _⟩ := evalExpr_evalok _ _ _ _ _ hrec
  subst ht
  have hclear := clearDeps_trackPres s (NodeRef.derived i)
  have hdcr_s2 : dcr (getDerived (pushCtx (clearDeps s (NodeRef.derived i))
      (NodeRef.derived i)) i) = dcr (getDerived s i) := hclear.2.2 i
  have hmem2 : NodeRef.derived i ∈ (pushCtx (clearDeps s (NodeRef.derived i))
      (NodeRef.derived i)).ctx := by
    rw [pushCtx_ctx]; exact List.mem_cons_self _ _
  have hdcr3 : dcr (getDerived s3 i) = dcr (getDerived s i) := (hd3 i hmem2).trans hdcr_s2
  have hlen3 : s3.deriveds.length = s.deriveds.length := by
    have h1 : (pushCtx (clearDeps s (NodeRef.derived i)) (NodeRef.derived i)).deriveds.length
        = s.deriveds.length := (baseEq_trans hclear.2.1 (baseEq_pushCtx _ _)).2.2.2.2.1
    exact hb3.2.2.2.2.1.trans h1
  have hrange : i < (popCtx s3).deriveds.length := by rw [popCtx_deriveds, hlen3]; exact hi
  have hs4 := getDerived_modify_self (popCtx s3) i
      (fun d2 => { d2 with cachedValue := some v, dirty := false, runCount := d2.runCount + 1 }) hrange
  have htr := (registerRead_trackPres (modifyDerived (popCtx s3) i
      (fun d2 => { d2 with cachedValue := some v, dirty := false, runCount := d2.runCount + 1 }))
      (NodeRef.derived i)).2.2 i
  refine ⟨?_, ?_, ?_⟩
  · rw [dcr_runCountEq _ _ htr, hs4]
    show (getDerived s3 i).runCount + 1 = (getDerived s i).runCount + 1
    rw [dcr_runCountEq _ _ hdcr3]
  · rw [dcr_dirtyEq _ _ htr, hs4]
  · rw [dcr_cachedEq _ _ htr, hs4]

theorem read_clean (fuel : Nat) (s : Runtime) (i : Nat)
    (hmem : NodeRef.derived i ∉ s.ctx) (hi : i < s.deriveds.length)
    (hd : (getDerived s i).dirty = false) :
    evalExpr fuel s (Expr.readDerived i)
      = Except.ok (registerRead s (NodeRef.derived i), (getDerived s i).cachedValue.getD 0) ∧
    (getDerived (registerRead s (NodeRef.derived i)) i).runCount = (getDerived s i).runCount := by
  constructor
  · obtain ⟨recur, hr⟩ := evalExpr_as_evalE fuel
    rw [hr, evalE_readDerived, if_neg hmem, if_pos hi, if_neg (by simp [hd])]
  · exact dcr_runCountEq _ _ ((registerRead_trackPres s _).2.2 i)

theorem read_dirty_deps (fuel : Nat) (s t : Runtime) (i v : Nat)
    (hok : ctxOk s) (hd : (getDerived s i).dirty = true) (hi : i < s.deriveds.length)
    (h : evalExpr fuel s (Expr.readDerived i) = Except.ok (t, v)) :
    (getDerived t i).deps = collectReads s.deriveds.length (getDerived s i).formula [] := by
  obtain ⟨s3, hmem, hrec, ht⟩ := readDerived_dirty_shape fuel s t i v hd hi h
  obtain ⟨hc3, hb3, hd3, hp3⟩ := evalExpr_evalok _ _ _ _ _ hrec
  subst ht
  have hclear := clearDeps_trackPres s (NodeRef.derived i)
  have hs2ctx : (pushCtx (clearDeps s (NodeRef.derived i)) (NodeRef.derived i)).ctx
      = NodeRef.derived i :: s.ctx := by rw [pushCtx_ctx, hclear.1]
  have hok2 := ctxOk_prep s i hok hi hmem
  have hrefok : refOk s (NodeRef.derived i) = true := by simp [refOk, hi]
  have hdeps_sp : depsOf (pushCtx (clearDeps s (NodeRef.derived i)) (NodeRef.derived i))
      (NodeRef.derived i) = [] := by
    have hpp : depsOf (pushCtx (clearDeps s (NodeRef.derived i)) (NodeRef.derived i))
        (NodeRef.derived i) = depsOf (clearDeps s (NodeRef.derived i)) (NodeRef.derived i) := rfl
    rw [hpp, clearDeps_deps_self s _ hrefok]
  have hlen2 : (pushCtx (clearDeps s (NodeRef.derived i)) (NodeRef.derived i)).deriveds.length
      = s.deriveds.length := (baseEq_trans hclear.2.1 (baseEq_pushCtx _ _)).2.2.2.2.1
  have h3 := hp3 hok2 (NodeRef.derived i) (by rw [hs2ctx]; exact List.mem_cons_self _ _)
  rw [if_pos (by rw [hs2ctx]; rfl), hdeps_sp, hlen2] at h3
  have hlen3 : s3.deriveds.length = s.deriveds.length := hb3.2.2.2.2.1.trans hlen2
  have hrange : i < (popCtx s3).deriveds.length := by rw [popCtx_deriveds, hlen3]; exact hi
  have hdeps_s4 : depsOf (modifyDerived (popCtx s3) i
      (fun d2 => { d2 with cachedValue := some v, dirty := false, runCount := d2.runCount + 1 }))
      (NodeRef.derived i) = depsOf s3 (NodeRef.derived i) := by
    rw [show depsOf (modifyDerived (popCtx s3) i
        (fun d2 => { d2 with cachedValue := some v, dirty := false, runCount := d2.runCount + 1 }))
        (NodeRef.derived i)
        = (getDerived (modifyDerived (popCtx s3) i
          (fun d2 => { d2 with cachedValue := some v, dirty := false, runCount := d2.runCount + 1 })) i).deps
        from rfl]
    rw [getDerived_modify_self (popCtx s3) i _ hrange]
    rfl
  have hctx4 : (modifyDerived (popCtx s3) i
      (fun d2 => { d2 with cachedValue := some v, dirty := false, runCount := d2.runCount + 1 })).ctx
      = s.ctx := by
    rw [modifyDerived_ctx, popCtx_ctx, hc3, hs2ctx]
    rfl
  have hfinal : depsOf (registerRead (modifyDerived (popCtx s3) i
      (fun d2 => { d2 with cachedValue := some v, dirty := false, runCount := d2.runCount + 1 }))
      (NodeRef.derived i)) (NodeRef.derived i)
      = depsOf s3 (NodeRef.derived i) := by
    rw [registerRead_deps_other _ _ _ (by
      rw [hctx4]
      intro r0 h0 hrr
      exact hmem (by rw [hrr]; exact mem_of_headq h0)), hdeps_s4]
  show depsOf _ (NodeRef.derived i) = _
  rw [hfinal, h3]

/-! # Claim theorems -/

/-- Claim C5: a state-cell write attempted while a derived formula is
executing (the top of the active context is a derived node) fails fast with
WriteDuringDerivationError, rejected at the write site, and the state -- in
particular the cell value -- is left unchanged. -/
theorem claimC5 (s : Runtime) (i v k : Nat)
    (h : s.ctx.head? = some (NodeRef.derived k)) :
    writeCell s i v = Except.error RTError.writeDuringDerivation ∧
    applyWrite s (i, v) = s := by
  have hd : isDerivedHead s = true := by
    unfold isDerivedHead
    rw [h]
  constructor
  · unfold writeCell
    rw [if_pos hd]
  · unfold applyWrite writeCell
    rw [if_pos hd]

/-- Witness for C5 at a concrete state whose context top is derived 0. -/
theorem claimC5_witness :
    wInDerivation.ctx.head? = some (NodeRef.derived 0) ∧
    (writeCell wInDerivation 0 7 = Except.error RTError.writeDuringDerivation ∧
     applyWrite wInDerivation (0, 7) = wInDerivation) :=
  ⟨by decide, claimC5 wInDerivation 0 7 0 (by decide)⟩

/-- Claim C7: writing a value equal to the current one (under the equality
rule of the runtime, here equality of naturals) only bumps the version: the
state is otherwise untouched, so nothing is marked dirty, nothing is
enqueued and no effect reruns; writing a different value sets the value,
bumps the version, marks every derived subscriber dirty and enqueues every
active effect subscriber into the queue of its phase. -/
theorem claimC7 (s : Runtime) (i v : Nat) (su tu : Runtime) (iu vu : Nat)
    (hd : isDerivedHead s = false) (hv : v = (getCell s i).value)
    (_hdu : isDerivedHead su = false) (hneu : vu ≠ (getCell su iu).value)
    (hiu : iu < su.cells.length) (hu : writeCell su iu vu = Except.ok tu) :
    writeCell s i v =
      Except.ok (modifyCell s i (fun c => { c with version := c.version + 1 })) ∧
    (getCell tu iu).value = vu ∧
    (getCell tu iu).version = (getCell su iu).version + 1 ∧
    (∀ k, NodeRef.derived k ∈ (getCell su iu).subscribers → (getDerived tu k).dirty = true) ∧
    (∀ k, NodeRef.effect k ∈ (getCell su iu).subscribers → (getEffect su k).disposed = false →
        k ∈ queueOf tu ((getEffect su k).phase)) := by
  obtain ⟨hval, hver⟩ := writeCell_sets_value su iu vu tu hiu hu
  obtain ⟨hdirty, henq⟩ := writeCell_propagates su iu vu tu hneu hu
  exact ⟨writeCell_noop s i v hd hv, hval, hver, hdirty, henq⟩

/-- Witness for C7: an equal write to the sample state is pure version
bookkeeping; an unequal write sets the value and dirties and enqueues the
subscribers. -/
theorem claimC7_witness :
    writeCell wState 0 1 =
      Except.ok (modifyCell wState 0 (fun c => { c with version := c.version + 1 })) ∧
    (getCell (applyWrite wState (0, 9)) 0).value = 9 ∧
    (getDerived (applyWrite wState (0, 9)) 0).dirty = true ∧
    0 ∈ queueOf (applyWrite wState (0, 9)) Phase.post := by
  have h := claimC7 wState 0 1 wState (applyWrite wState (0, 9)) 0 9
    (by decide) (by decide) (by decide) (by decide) (by decide) (by decide)
  refine ⟨h.1, h.2.1, h.2.2.2.1 0 (by decide), ?_⟩
  have h2 := h.2.2.2.2 0 (by decide) (by decide)
  exact (by decide : (getEffect wState 0).phase = Phase.post) ▸ h2

/-- Claim C2: a derived formula runs exactly once between a dependency
write and the next read, and zero times if never read.  Part one: a
successful unequal write executes no formula (every run counter is
unchanged) and only marks dependent derived nodes dirty.  Part two: reading
a dirty derived runs its formula exactly once, stores the cache and clears
the dirty flag.  Part three: reading a clean derived returns the cached
value by registering only the dependency edge, without executing the
formula. -/
theorem claimC2
    (sw : Runtime) (iw vw : Nat) (tw : Runtime)
    (sr : Runtime) (ir fuelr xr : Nat) (tr2 : Runtime)
    (sc2 : Runtime) (ic fuelc : Nat)
    (hwa : writeCell sw iw vw = Except.ok tw)
    (hwne : vw ≠ (getCell sw iw).value)
    (hb1 : (getDerived sr ir).dirty = true) (hb2 : ir < sr.deriveds.length)
    (hb3 : evalExpr fuelr sr (Expr.readDerived ir) = Except.ok (tr2, xr))
    (hc1 : (getDerived sc2 ic).dirty = false) (hc2 : ic < sc2.deriveds.length)
    (hc3 : NodeRef.derived ic ∉ sc2.ctx) :
    ((∀ k, (getDerived tw k).runCount = (getDerived sw k).runCount) ∧
     (∀ k, NodeRef.derived k ∈ (getCell sw iw).subscribers → (getDerived tw k).dirty = true)) ∧
    ((getDerived tr2 ir).runCount = (getDerived sr ir).runCount + 1 ∧
     (getDerived tr2 ir).dirty = false ∧
     (getDerived tr2 ir).cachedValue = some xr) ∧
    (evalExpr fuelc sc2 (Expr.readDerived ic)
        = Except.ok (registerRead sc2 (NodeRef.derived ic),
            (getDerived sc2 ic).cachedValue.getD 0) ∧
     (getDerived (registerRead sc2 (NodeRef.derived ic)) ic).runCount
        = (getDerived sc2 ic).runCount) := by
  refine ⟨⟨?_, ?_⟩, ?_, ?_⟩
  · exact (writeCell_ok_pres sw iw vw tw hwa).2.2.2.2.2.2.2.1
  · exact (writeCell_propagates sw iw vw tw hwne hwa).1
  · exact read_dirty_memo fuelr sr tr2 ir xr hb1 hb2 hb3
  · exact read_clean fuelc sc2 ic hc3 hc2 hc1

/-- Witness for C2 at concrete states: the write leaves the run counter at
its old value while dirtying the subscriber; the first read of the dirty
derived runs the formula once; a clean read returns the cache. -/
theorem claimC2_witness :
    ((getDerived (applyWrite wState (0, 9)) 0).runCount = (getDerived wState 0).runCount ∧
     (getDerived (applyWrite wState (0, 9)) 0).dirty = true) ∧
    ((getDerived (evalResult 1 wDirty (Expr.readDerived 0)).1 0).runCount
        = (getDerived wDirty 0).runCount + 1) ∧
    (evalExpr 1 wState (Expr.readDerived 0)
        = Except.ok (registerRead wState (NodeRef.derived 0),
            (getDerived wState 0).cachedValue.getD 0)) := by
  have h := claimC2 wState 0 9 (applyWrite wState (0, 9))
    wDirty 0 1 (evalResult 1 wDirty (Expr.readDerived 0)).2
    (evalResult 1 wDirty (Expr.readDerived 0)).1
    wState 0 1
    (by decide) (by decide) (by decide) (by decide) (by decide)
    (by decide) (by decide) (by decide)
  exact ⟨⟨h.1.1 0, h.1.2 0 (by decide)⟩, h.2.1.1, h.2.2.1⟩

/-! ## Cycle detection -/

theorem prep_ctx (s : Runtime) (i : Nat) :
    (pushCtx (clearDeps s (NodeRef.derived i)) (NodeRef.derived i)).ctx
      = NodeRef.derived i :: s.ctx := by
  rw [pushCtx_ctx, (clearDeps_trackPres s (NodeRef.derived i)).1]

theorem prep_len (s : Runtime) (i : Nat) :
    (pushCtx (clearDeps s (NodeRef.derived i)) (NodeRef.derived i)).deriveds.length
      = s.deriveds.length :=
  (baseEq_trans (clearDeps_trackPres s (NodeRef.derived i)).2.1 (baseEq_pushCtx _ _)).2.2.2.2.1

theorem prep_formula (s : Runtime) (i k : Nat) :
    (getDerived (pushCtx (clearDeps s (NodeRef.derived i)) (NodeRef.derived i)) k).formula
      = (getDerived s k).formula :=
  (baseEq_trans (clearDeps_trackPres s (NodeRef.derived i)).2.1
    (baseEq_pushCtx _ _)).2.2.2.2.2.2.2.2.1 k

theorem prep_dirty (s : Runtime) (i k : Nat) :
    (getDerived (pushCtx (clearDeps s (NodeRef.derived i)) (NodeRef.derived i)) k).dirty
      = (getDerived s k).dirty :=
  dcr_dirtyEq _ _ ((clearDeps_trackPres s (NodeRef.derived i)).2.2 k)

theorem evalE_cycle (recur : Runtime → Expr → Except RTError (Runtime × Nat))
    (HrOk : ∀ s f t v, recur s f = Except.ok (t, v) → EvalOk s f t)
    (HrA : ∀ s f k t v, NodeRef.derived k ∈ s.ctx → occursD k f = true →
        recur s f ≠ Except.ok (t, v))
    (HrC : ∀ s f t v j i2, recur s f = Except.ok (t, v) → NodeRef.derived i2 ∈ s.ctx →
        occursD i2 ((getDerived s j).formula) = true →
        (getDerived t j).dirty = (getDerived s j).dirty) :
    ∀ e : Expr,
      (∀ s k t v, NodeRef.derived k ∈ s.ctx → occursD k e = true →
          evalE recur s e ≠ Except.ok (t, v)) ∧
      (∀ s t v j i2, evalE recur s e = Except.ok (t, v) → NodeRef.derived i2 ∈ s.ctx →
          occursD i2 ((getDerived s j).formula) = true →
          (getDerived t j).dirty = (getDerived s j).dirty) ∧
      (∀ s t v i2 j, NodeRef.derived i2 ∈ s.ctx → occursD j e = true →
          (getDerived s j).dirty = true → occursD i2 ((getDerived s j).formula) = true →
          evalE recur s e ≠ Except.ok (t, v)) := by
  have Hev := evalE_evalok recur HrOk
  intro e
  induction e with
  | lit n =>
      refine ⟨?_, ?_, ?_⟩
      · intro s k t v _ hocc
        simp [occursD] at hocc
      · intro s t v j i2 h _ _
        rw [evalE_lit, Except.ok.injEq, Prod.mk.injEq] at h
        rw [← h.1]
      · intro s t v i2 j _ hocc
        simp [occursD] at hocc
  | readCell i =>
      refine ⟨?_, ?_, ?_⟩
      · intro s k t v _ hocc
        simp [occursD] at hocc
      · intro s t v j i2 h _ _
        rw [evalE_readCell, Except.ok.injEq, Prod.mk.injEq] at h
        rw [← h.1]
        exact dcr_dirtyEq _ _ ((registerRead_trackPres s _).2.2 j)
      · intro s t v i2 j _ hocc
        simp [occursD] at hocc
  | add a b iha ihb =>
      obtain ⟨ihaA, ihaC, ihaB⟩ := iha
      obtain ⟨ihbA, ihbC, ihbB⟩ := ihb
      refine ⟨?_, ?_, ?_⟩
      · intro s k t v hk hocc h
        rw [evalE_add] at h
        cases ha : evalE recur s a with
        | error err =>
            rw [ha] at h
            simp only [Except.bind] at h
            exact Except.noConfusion h
        | ok p =>
            rw [ha] at h
            obtain ⟨s1, va⟩ := p
            simp only [Except.bind] at h
            by_cases hja : occursD k a = true
            · exact ihaA s k s1 va hk hja ha
            · have hjb : occursD k b = true := by
                simp [occursD, hja] at hocc
                exact hocc
              have hctx1 : s1.ctx = s.ctx := (Hev a s s1 va ha).1
              cases hb : evalE recur s1 b with
              | error err =>
                  rw [hb] at h
                  simp only [Except.bind] at h
                  exact Except.noConfusion h
              | ok q =>
                  exact ihbA s1 k q.1 q.2 (by rw [hctx1]; exact hk) hjb
                    (by rw [← hb])
      · intro s t v j i2 h hi2 hocc
        rw [evalE_add] at h
        cases ha : evalE recur s a with
        | error err =>
            rw [ha] at h
            simp only [Except.bind] at h
            exact Except.noConfusion h
        | ok p =>
            rw [ha] at h
            obtain ⟨s1, va⟩ := p
            simp only [Except.bind] at h
            cases hb : evalE recur s1 b with
            | error err =>
                rw [hb] at h
                simp only [Except.bind] at h
                exact Except.noConfusion h
            | ok q =>
                obtain ⟨s2, vb⟩ := q
                rw [hb] at h
                simp only [Except.bind, Except.ok.injEq, Prod.mk.injEq] at h
                have hctx1 : s1.ctx = s.ctx := (Hev a s s1 va ha).1
                have hform1 : ∀ k2, (getDerived s1 k2).formula = (getDerived s k2).formula :=
                  (Hev a s s1 va ha).2.1.2.2.2.2.2.2.2.2.1
                have hC1 := ihaC s s1 va j i2 ha hi2 hocc
                have hC2 := ihbC s1 s2 vb j i2 hb (by rw [hctx1]; exact hi2)
                  (by rw [hform1 j]; exact hocc)
                rw [← h.1]
                exact hC2.trans hC1
      · intro s t v i2 j hi2 hocc hdj hfj h
        rw [evalE_add] at h
        cases ha : evalE recur s a with
        | error err =>
            rw [ha] at h
            simp only [Except.bind] at h
            exact Except.noConfusion h
        | ok p =>
            rw [ha] at h
            obtain ⟨s1, va⟩ := p
            simp only [Except.bind] at h
            by_cases hja : occursD j a = true
            · exact ihaB s s1 va i2 j hi2 hja hdj hfj ha
            · have hjb : occursD j b = true := by
                simp [occursD, hja] at hocc
                exact hocc
              have hctx1 : s1.ctx = s.ctx := (Hev a s s1 va ha).1
              have hform1 : ∀ k2, (getDerived s1 k2).formula = (getDerived s k2).formula :=
                (Hev a s s1 va ha).2.1.2.2.2.2.2.2.2.2.1
              have hd1 : (getDerived s1 j).dirty = true := by
                rw [ihaC s s1 va j i2 ha hi2 hfj]
                exact hdj
              cases hb : evalE recur s1 b with
              | error err =>
                  rw [hb] at h
                  simp only [Except.bind] at h
                  exact Except.noConfusion h
              | ok q =>
                  exact ihbB s1 q.1 q.2 i2 j (by rw [hctx1]; exact hi2) hjb hd1
                    (by rw [hform1 j]; exact hfj) (by rw [← hb])
  | readDerived m =>
      refine ⟨?_, ?_, ?_⟩
      · intro s k t v hk hocc h
        have hmk : m = k := by simpa [occursD] using hocc
        subst hmk
        rw [evalE_readDerived, if_pos hk] at h
        exact Except.noConfusion h
      · intro s t v j i2 h hi2 hocc
        rw [evalE_readDerived] at h
        by_cases hmem : NodeRef.derived m ∈ s.ctx
        · rw [if_pos hmem] at h
          exact Except.noConfusion h
        · rw [if_neg hmem] at h
          by_cases hm : m < s.deriveds.length
          · rw [if_pos hm] at h
            by_cases hdm : (getDerived s m).dirty = true
            · rw [if_pos hdm] at h
              unfold readDirty at h
              cases hrec : recur (pushCtx (clearDeps s (NodeRef.derived m)) (NodeRef.derived m))
                  (getDerived s m).formula with
              | error err =>
                  rw [hrec] at h
                  simp only [Except.bind] at h
                  exact Except.noConfusion h
              | ok p =>
                  rw [hrec] at h
                  obtain ⟨s3, v3⟩ := p
                  simp only [Except.bind, Except.ok.injEq, Prod.mk.injEq] at h
                  by_cases hjm : j = m
                  · subst hjm
                    exact absurd hrec (HrA _ _ i2 s3 v3
                      (by rw [prep_ctx]; exact List.mem_cons_of_mem _ hi2) hocc)
                  · rw [← h.1]
                    have step1 := dcr_dirtyEq _ _
                      ((registerRead_trackPres (modifyDerived (popCtx s3) m
                        (fun d2 => { d2 with cachedValue := some v3, dirty := false, runCount := d2.runCount + 1 }))
                        (NodeRef.derived m)).2.2 j)
                    have step2 : (getDerived (modifyDerived (popCtx s3) m
                        (fun d2 => { d2 with cachedValue := some v3, dirty := false, runCount := d2.runCount + 1 })) j).dirty
                        = (getDerived s3 j).dirty := by
                      rw [getDerived_modify_ne (popCtx s3) m j _ (fun he => hjm he.symm)]
                      rfl
                    have step3 := HrC _ _ s3 v3 j i2 hrec
                      (by rw [prep_ctx]; exact List.mem_cons_of_mem _ hi2)
                      (by rw [prep_formula]; exact hocc)
                    rw [step1, step2, step3, prep_dirty]
            · rw [if_neg hdm, Except.ok.injEq, Prod.mk.injEq] at h
              rw [← h.1]
              exact dcr_dirtyEq _ _ ((registerRead_trackPres s _).2.2 j)
          · rw [if_neg hm, Except.ok.injEq, Prod.mk.injEq] at h
            rw [← h.1]
      · intro s t v i2 j hi2 hocc hdj hfj h
        have hmj : m = j := by simpa [occursD] using hocc
        subst hmj
        rw [evalE_readDerived] at h
        by_cases hmem : NodeRef.derived m ∈ s.ctx
        · rw [if_pos hmem] at h
          exact Except.noConfusion h
        · rw [if_neg hmem] at h
          by_cases hm : m < s.deriveds.length
          · rw [if_pos hm, if_pos hdj] at h
            unfold readDirty at h
            cases hrec : recur (pushCtx (clearDeps s (NodeRef.derived m)) (NodeRef.derived m))
                (getDerived s m).formula with
            | error err =>
                rw [hrec] at h
                simp only [Except.bind] at h
                exact Except.noConfusion h
            | ok p =>
                exact absurd hrec (HrA _ _ i2 p.1 p.2
                  (by rw [prep_ctx]; exact List.mem_cons_of_mem _ hi2) hfj)
          · rw [getDerived_oob s m hm] at hfj
            simp [defDerived, occursD] at hfj

theorem evalExpr_cycle : ∀ fuel : Nat,
    (∀ e s k t v, NodeRef.derived k ∈ s.ctx → occursD k e = true →
        evalExpr fuel s e ≠ Except.ok (t, v)) ∧
    (∀ e s t v j i2, evalExpr fuel s e = Except.ok (t, v) → NodeRef.derived i2 ∈ s.ctx →
        occursD i2 ((getDerived s j).formula) = true →
        (getDerived t j).dirty = (getDerived s j).dirty) ∧
    (∀ e s t v i2 j, NodeRef.derived i2 ∈ s.ctx → occursD j e = true →
        (getDerived s j).dirty = true → occursD i2 ((getDerived s j).formula) = true →
        evalExpr fuel s e ≠ Except.ok (t, v)) := by
  intro fuel
  induction fuel with
  | zero =>
      have h := evalE_cycle (fun _ _ => Except.error RTError.fuelExhausted)
        (fun s2 f t2 v2 h0 => by cases h0)
        (fun s2 f k t2 v2 _ _ h0 => by cases h0)
        (fun s2 f t2 v2 j i2 h0 => by cases h0)
      exact ⟨fun e => (h e).1, fun e => (h e).2.1, fun e => (h e).2.2⟩
  | succ fuel ih =>
      have h := evalE_cycle (evalExpr fuel)
        (fun s2 f t2 v2 h0 => evalExpr_evalok fuel f s2 t2 v2 h0)
        (fun s2 f k t2 v2 hm ho h0 => ih.1 f s2 k t2 v2 hm ho h0)
        (fun s2 f t2 v2 j i2 h0 hm ho => ih.2.1 f s2 t2 v2 j i2 h0 hm ho)
      exact ⟨fun e => (h e).1, fun e => (h e).2.1, fun e => (h e).2.2⟩

/-- Claim C4: two derived nodes whose formulas read each other are a
dependency cycle.  For the canonical mutual pair, reading either node
reports DependencyCycleError (with enough fuel for the embedding to reach
the repeated frame).  In general, whenever the two formulas read each other
(possibly inside larger expressions), no amount of fuel makes the read
return a value: it can neither produce UNSET nor a stale or default value. -/
theorem claimC4 (s : Runtime) (i j fuel : Nat)
    (sg : Runtime) (ig jg fg : Nat)
    (hne : i ≠ j) (hi : i < s.deriveds.length) (hj : j < s.deriveds.length)
    (hfi : (getDerived s i).formula = Expr.readDerived j)
    (hfj : (getDerived s j).formula = Expr.readDerived i)
    (hdi : (getDerived s i).dirty = true) (hdj : (getDerived s j).dirty = true)
    (hctx : s.ctx = []) (hfuel : 2 ≤ fuel)
    (hgi : ig < sg.deriveds.length) (hgj : jg < sg.deriveds.length)
    (hgfi : occursD jg ((getDerived sg ig).formula) = true)
    (hgfj : occursD ig ((getDerived sg jg).formula) = true)
    (hgdi : (getDerived sg ig).dirty = true) (hgdj : (getDerived sg jg).dirty = true)
    (_hgctx : sg.ctx = []) :
    evalExpr fuel s (Expr.readDerived i) = Except.error RTError.dependencyCycle ∧
    evalExpr fuel s (Expr.readDerived j) = Except.error RTError.dependencyCycle ∧
    (∀ t v, evalExpr fg sg (Expr.readDerived ig) ≠ Except.ok (t, v)) ∧
    (∀ t v, evalExpr fg sg (Expr.readDerived jg) ≠ Except.ok (t, v)) := by
  obtain ⟨k, rfl⟩ : ∃ k, fuel = k + 2 := ⟨fuel - 2, by omega⟩
  have main : ∀ i2 j2, i2 ≠ j2 → i2 < s.deriveds.length → j2 < s.deriveds.length →
      (getDerived s i2).formula = Expr.readDerived j2 →
      (getDerived s j2).formula = Expr.readDerived i2 →
      (getDerived s i2).dirty = true → (getDerived s j2).dirty = true →
      evalExpr (k + 2) s (Expr.readDerived i2) = Except.error RTError.dependencyCycle := by
    intro i2 j2 hne2 hi2 hj2 hfi2 hfj2 hdi2 hdj2
    rw [evalExpr_succ, evalE_readDerived]
    rw [if_neg (by rw [hctx]; simp), if_pos hi2, if_pos hdi2]
    unfold readDirty
    rw [hfi2]
    rw [evalExpr_succ, evalE_readDerived]
    have hm1 : NodeRef.derived j2 ∉ (pushCtx (clearDeps s (NodeRef.derived i2))
        (NodeRef.derived i2)).ctx := by
      rw [prep_ctx, hctx]
      simp
      exact fun he => hne2 he.symm
    rw [if_neg hm1]
    rw [if_pos (by rw [prep_len]; exact hj2)]
    rw [if_pos (by rw [prep_dirty]; exact hdj2)]
    unfold readDirty
    rw [prep_formula, hfj2]
    obtain ⟨recur, hrq⟩ := evalExpr_as_evalE k
    rw [hrq, evalE_readDerived]
    rw [if_pos (by
      rw [prep_ctx, prep_ctx]
      exact List.mem_cons_of_mem _ (List.mem_cons_self _ _))]
    rfl
  have general : ∀ (ia ja : Nat), ia < sg.deriveds.length →
      occursD ja ((getDerived sg ia).formula) = true →
      occursD ia ((getDerived sg ja).formula) = true →
      (getDerived sg ia).dirty = true → (getDerived sg ja).dirty = true →
      ∀ t v, evalExpr fg sg (Expr.readDerived ia) ≠ Except.ok (t, v) := by
    intro ia ja hia hfa hfb hda hdb t v h
    obtain ⟨s3, hmem, hrec, _⟩ := readDerived_dirty_shape fg sg t ia v hda hia h
    exact (evalExpr_cycle (fg - 1)).2.2 ((getDerived sg ia).formula)
      (pushCtx (clearDeps sg (NodeRef.derived ia)) (NodeRef.derived ia)) s3 v ia ja
      (by rw [prep_ctx]; exact List.mem_cons_self _ _)
      hfa
      (by rw [prep_dirty]; exact hdb)
      (by rw [prep_formula]; exact hfb)
      hrec
  exact ⟨main i j hne hi hj hfi hfj hdi hdj,
    main j i (fun he => hne he.symm) hj hi hfj hfi hdj hdi,
    general ig jg hgi hgfi hgfj hgdi hgdj,
    general jg ig hgj hgfj hgfi hgdj hgdi⟩

/-- Witness for C4 on the two-node mutual cycle: reading either derived
with fuel two reports the dependency cycle, and a larger fuel never turns
either read into a success. -/
theorem claimC4_witness :
    evalExpr 2 wCycle (Expr.readDerived 0) = Except.error RTError.dependencyCycle ∧
    evalExpr 2 wCycle (Expr.readDerived 1) = Except.error RTError.dependencyCycle ∧
    evalExpr 9 wCycle (Expr.readDerived 0) ≠ Except.ok (wCycle, 0) ∧
    evalExpr 9 wCycle (Expr.readDerived 1) ≠ Except.ok (wCycle, 0) := by
  have h := claimC4 wCycle 0 1 2 wCycle 0 1 9
    (by decide) (by decide) (by decide) (by decide) (by decide) (by decide) (by decide)
    (by decide) (by decide) (by decide) (by decide) (by decide) (by decide) (by decide)
    (by decide) (by decide)
  exact ⟨h.1, h.2.1, h.2.2.1 wCycle 0, h.2.2.2 wCycle 0⟩

/-! ## Effect bodies -/

theorem baseCmdEq_refl (s : Runtime) : baseCmdEq s s :=
  ⟨rfl, rfl, rfl, rfl, fun _ => rfl, fun _ => rfl⟩

theorem baseCmdEq_trans {s t u : Runtime} (h1 : baseCmdEq s t) (h2 : baseCmdEq t u) :
    baseCmdEq s u := by
  obtain ⟨p1, p2, p3, p4, p5, p6⟩ := h1
  obtain ⟨q1, q2, q3, q4, q5, q6⟩ := h2
  refine ⟨q1.trans p1, q2.trans p2, q3.trans p3, q4.trans p4, ?_, ?_⟩
  · intro k
    exact (q5 k).trans (p5 k)
  · intro k
    exact (q6 k).trans (p6 k)

theorem baseCmdEq_of_baseEq {s t : Runtime} (h : baseEq s t) : baseCmdEq s t := by
  obtain ⟨_, _, a3, a4, a5, a6, _, _, a9, a10⟩ := h
  exact ⟨a3, a4, a5, a6, a9, a10⟩

theorem refOk_of_baseCmdEq {s t : Runtime} (hb : baseCmdEq s t) (r : NodeRef) :
    refOk t r = refOk s r := by
  obtain ⟨_, _, hld, hle, _⟩ := hb
  cases r <;> simp [refOk, hld, hle]

theorem ctxOk_transport_cmd {s t : Runtime} (hctx : t.ctx = s.ctx) (hb : baseCmdEq s t)
    (hok : ctxOk s) : ctxOk t := by
  refine ⟨by rw [hctx]; exact hok.1, ?_⟩
  intro r hr
  rw [refOk_of_baseCmdEq hb r]
  exact hok.2 r (by rwa [hctx] at hr)

theorem writeCell_cmd (s : Runtime) (i v : Nat) (t : Runtime)
    (h : writeCell s i v = Except.ok t) :
    t.ctx = s.ctx ∧ baseCmdEq s t ∧ (∀ r, depsOf t r = depsOf s r) := by
  obtain ⟨a1, a2, a3, a4, a5, a6, _, _, a9, a10⟩ := writeCell_ok_pres s i v t h
  exact ⟨a1, ⟨a2, a3, a4, a5, a6, a9⟩, a10⟩

theorem execCmd_cwrite (fuel : Nat) (s : Runtime) (i : Nat) (e : Expr) :
    execCmd fuel s (Cmd.cwrite i e) =
      Except.bind (evalExpr fuel s e) (fun p => writeCell p.1 i p.2) := rfl

theorem execCmd_cread (fuel : Nat) (s : Runtime) (e : Expr) :
    execCmd fuel s (Cmd.cread e) =
      Except.bind (evalExpr fuel s e) (fun p => Except.ok p.1) := rfl

theorem execCmd_ok (fuel : Nat) (c : Cmd) (s t : Runtime)
    (h : execCmd fuel s c = Except.ok t) :
    t.ctx = s.ctx ∧ baseCmdEq s t ∧
    (ctxOk s → ∀ r ∈ s.ctx, depsOf t r =
      (if s.ctx.head? = some r then collectCmd s.deriveds.length c (depsOf s r)
       else depsOf s r)) := by
  cases c with
  | cwrite i e =>
      rw [execCmd_cwrite] at h
      cases hev : evalExpr fuel s e with
      | error err =>
          rw [hev] at h
          simp only [Except.bind] at h
          exact Except.noConfusion h
      | ok p =>
          rw [hev] at h
          simp only [Except.bind] at h
          obtain ⟨hc1, hb1, hd1, hp1⟩ := evalExpr_evalok fuel e s p.1 p.2 hev
          obtain ⟨hc2, hb2, hdep2⟩ := writeCell_cmd p.1 i p.2 t h
          refine ⟨hc2.trans hc1, baseCmdEq_trans (baseCmdEq_of_baseEq hb1) hb2, ?_⟩
          intro hok r hr
          rw [hdep2 r, hp1 hok r hr]
          rfl
  | cread e =>
      rw [execCmd_cread] at h
      cases hev : evalExpr fuel s e with
      | error err =>
          rw [hev] at h
          simp only [Except.bind] at h
          exact Except.noConfusion h
      | ok p =>
          rw [hev] at h
          simp only [Except.bind, Except.ok.injEq] at h
          obtain ⟨hc1, hb1, hd1, hp1⟩ := evalExpr_evalok fuel e s p.1 p.2 hev
          subst h
          exact ⟨hc1, baseCmdEq_of_baseEq hb1, hp1⟩

theorem execCmds_nil (fuel : Nat) (s : Runtime) : execCmds fuel s [] = Except.ok s := rfl

theorem execCmds_cons (fuel : Nat) (s : Runtime) (c : Cmd) (rest : List Cmd) :
    execCmds fuel s (c :: rest) =
      Except.bind (execCmd fuel s c) (fun s1 => execCmds fuel s1 rest) := rfl

theorem collectCmds_nil (nD : Nat) (acc : List NodeRef) : collectCmds nD [] acc = acc := rfl

theorem collectCmds_cons (nD : Nat) (c : Cmd) (rest : List Cmd) (acc : List NodeRef) :
    collectCmds nD (c :: rest) acc = collectCmds nD rest (collectCmd nD c acc) := rfl

theorem execCmds_ok (fuel : Nat) : ∀ (cmds : List Cmd) (s t : Runtime),
    execCmds fuel s cmds = Except.ok t → CmdOk s cmds t := by
  intro cmds
  induction cmds with
  | nil =>
      intro s t h
      rw [execCmds_nil, Except.ok.injEq] at h
      subst h
      refine ⟨rfl, baseCmdEq_refl s, ?_⟩
      intro _ r _
      rw [collectCmds_nil, ite_self]
  | cons c rest ih =>
      intro s t h
      rw [execCmds_cons] at h
      cases hc : execCmd fuel s c with
      | error err =>
          rw [hc] at h
          simp only [Except.bind] at h
          exact Except.noConfusion h
      | ok s1 =>
          rw [hc] at h
          simp only [Except.bind] at h
          obtain ⟨hc1, hb1, hp1⟩ := execCmd_ok fuel c s s1 hc
          obtain ⟨hc2, hb2, hp2⟩ := ih s1 t h
          refine ⟨hc2.trans hc1, baseCmdEq_trans hb1 hb2, ?_⟩
          intro hok r hr
          have hok1 : ctxOk s1 := ctxOk_transport_cmd hc1 hb1 hok
          have hr1 : r ∈ s1.ctx := by rwa [hc1]
          have hnD : s1.deriveds.length = s.deriveds.length := hb1.2.2.1
          have h2 := hp2 hok1 r hr1
          rw [hc1, hnD] at h2
          by_cases hh : s.ctx.head? = some r
          · rw [if_pos hh] at h2 ⊢
            rw [h2, hp1 hok r hr, if_pos hh, collectCmds_cons]
          · rw [if_neg hh] at h2 ⊢
            rw [h2, hp1 hok r hr, if_neg hh]

/-! ## Effect runs, cleanup and disposal -/

theorem runCleanup_eq (s : Runtime) (j : Nat) :
    runCleanup s j =
      (if (getEffect s j).pendingCleanup = true then
        modifyEffect s j (fun e => { e with pendingCleanup := false, cleanupCount := e.cleanupCount + 1 })
      else s) := rfl

theorem runEffect_eq (fuel : Nat) (s : Runtime) (j : Nat) :
    runEffect fuel s j =
      (if (getEffect s j).disposed = true then s
       else
        match execCmds fuel (pushCtx (clearDeps (runCleanup s j) (NodeRef.effect j))
            (NodeRef.effect j)) ((getEffect s j).body) with
        | Except.ok s3 => finishEffect (popCtx s3) j (getEffect s j).hasCleanup
        | Except.error _ =>
            popCtx (pushCtx (clearDeps (runCleanup s j) (NodeRef.effect j)) (NodeRef.effect j))) := rfl

theorem disposeEffect_eq (s : Runtime) (j : Nat) :
    disposeEffect s j =
      (if (getEffect s j).disposed = true then s
       else modifyEffect (clearDeps (runCleanup s j) (NodeRef.effect j)) j
         (fun e => { e with disposed := true })) := rfl

/-- The cleanup step only touches the pendingCleanup and cleanupCount of one
effect: context, queues, stores, sizes and all other effect fields are
unchanged. -/
theorem runCleanup_pres (s : Runtime) (j : Nat) :
    (runCleanup s j).ctx = s.ctx ∧
    (runCleanup s j).queuePre = s.queuePre ∧ (runCleanup s j).queuePost = s.queuePost ∧
    (runCleanup s j).domVersion = s.domVersion ∧
    (runCleanup s j).cells = s.cells ∧ (runCleanup s j).deriveds = s.deriveds ∧
    (runCleanup s j).effects.length = s.effects.length ∧
    (∀ k, (getEffect (runCleanup s j) k).body = (getEffect s k).body ∧
      (getEffect (runCleanup s j) k).phase = (getEffect s k).phase ∧
      (getEffect (runCleanup s j) k).hasCleanup = (getEffect s k).hasCleanup ∧
      (getEffect (runCleanup s j) k).disposed = (getEffect s k).disposed ∧
      (getEffect (runCleanup s j) k).runCount = (getEffect s k).runCount ∧
      (getEffect (runCleanup s j) k).deps = (getEffect s k).deps) := by
  rw [runCleanup_eq]
  by_cases hp : (getEffect s j).pendingCleanup = true
  · rw [if_pos hp]
    refine ⟨rfl, rfl, rfl, rfl, rfl, rfl, by simp, ?_⟩
    intro k
    refine ⟨?_, ?_, ?_, ?_, ?_, ?_⟩
    · exact getEffect_modify_proj s j _ (fun e => e.body) rfl k
    · exact getEffect_modify_proj s j _ (fun e => e.phase) rfl k
    · exact getEffect_modify_proj s j _ (fun e => e.hasCleanup) rfl k
    · exact getEffect_modify_proj s j _ (fun e => e.disposed) rfl k
    · exact getEffect_modify_proj s j _ (fun e => e.runCount) rfl k
    · exact getEffect_modify_proj s j _ (fun e => e.deps) rfl k
  · rw [if_neg hp]
    exact ⟨rfl, rfl, rfl, rfl, rfl, rfl, rfl, fun k => ⟨rfl, rfl, rfl, rfl, rfl, rfl⟩⟩

theorem runCleanup_count (s : Runtime) (j : Nat) (hj : j < s.effects.length) :
    (getEffect (runCleanup s j) j).pendingCleanup = false ∧
    (getEffect (runCleanup s j) j).cleanupCount =
      (getEffect s j).cleanupCount +
        (if (getEffect s j).pendingCleanup = true then 1 else 0) := by
  rw [runCleanup_eq]
  by_cases hp : (getEffect s j).pendingCleanup = true
  · rw [if_pos hp, if_pos hp, getEffect_modify_self s j _ hj]
    exact ⟨rfl, rfl⟩
  · rw [if_neg hp, if_neg hp]
    exact ⟨by simpa using hp, rfl⟩

theorem finishEffect_pres (s : Runtime) (j : Nat) (hc : Bool) :
    (finishEffect s j hc).ctx = s.ctx ∧
    (finishEffect s j hc).domVersion = s.domVersion ∧
    (finishEffect s j hc).effects.length = s.effects.length ∧
    (∀ k, (getEffect (finishEffect s j hc) k).body = (getEffect s k).body ∧
      (getEffect (finishEffect s j hc) k).hasCleanup = (getEffect s k).hasCleanup ∧
      (getEffect (finishEffect s j hc) k).disposed = (getEffect s k).disposed ∧
      (getEffect (finishEffect s j hc) k).cleanupCount = (getEffect s k).cleanupCount ∧
      (getEffect (finishEffect s j hc) k).deps = (getEffect s k).deps) := by
  refine ⟨rfl, rfl, by simp [finishEffect], ?_⟩
  intro k
  refine ⟨?_, ?_, ?_, ?_, ?_⟩
  · exact getEffect_modify_proj s j _ (fun e => e.body) rfl k
  · exact getEffect_modify_proj s j _ (fun e => e.hasCleanup) rfl k
  · exact getEffect_modify_proj s j _ (fun e => e.disposed) rfl k
  · exact getEffect_modify_proj s j _ (fun e => e.cleanupCount) rfl k
  · exact getEffect_modify_proj s j _ (fun e => e.deps) rfl k

theorem finishEffect_self (s : Runtime) (j : Nat) (hc : Bool) (hj : j < s.effects.length) :
    (getEffect (finishEffect s j hc) j).pendingCleanup = hc ∧
    (getEffect (finishEffect s j hc) j).runCount = (getEffect s j).runCount + 1 := by
  unfold finishEffect
  rw [getEffect_modify_self s j _ hj]
  exact ⟨rfl, rfl⟩

/-- One effect run preserves the DOM version, the number of effects, every
disposal flag and the context. -/
theorem runEffect_pres (fuel : Nat) (s : Runtime) (j : Nat) :
    (runEffect fuel s j).domVersion = s.domVersion ∧
    (runEffect fuel s j).effects.length = s.effects.length ∧
    (∀ k, (getEffect (runEffect fuel s j) k).disposed = (getEffect s k).disposed) ∧
    (runEffect fuel s j).ctx = s.ctx := by
  rw [runEffect_eq]
  by_cases hd : (getEffect s j).disposed = true
  · rw [if_pos hd]
    exact ⟨rfl, rfl, fun _ => rfl, rfl⟩
  · rw [if_neg hd]
    have hcl := runCleanup_pres s j
    have hclear := clearDeps_trackPres (runCleanup s j) (NodeRef.effect j)
    have hprep_dom : (pushCtx (clearDeps (runCleanup s j) (NodeRef.effect j))
        (NodeRef.effect j)).domVersion = s.domVersion := by
      rw [pushCtx_dom, hclear.2.1.2.2.1, hcl.2.2.2.1]
    have hprep_len : (pushCtx (clearDeps (runCleanup s j) (NodeRef.effect j))
        (NodeRef.effect j)).effects.length = s.effects.length := by
      rw [show (pushCtx (clearDeps (runCleanup s j) (NodeRef.effect j))
        (NodeRef.effect j)).effects = (clearDeps (runCleanup s j) (NodeRef.effect j)).effects from rfl,
        hclear.2.1.2.2.2.2.2.1, hcl.2.2.2.2.2.2.1]
    have hprep_disp : ∀ k, (getEffect (pushCtx (clearDeps (runCleanup s j) (NodeRef.effect j))
        (NodeRef.effect j)) k).disposed = (getEffect s k).disposed := by
      intro k
      rw [show getEffect (pushCtx (clearDeps (runCleanup s j) (NodeRef.effect j))
          (NodeRef.effect j)) k = getEffect (clearDeps (runCleanup s j) (NodeRef.effect j)) k from rfl]
      rw [effCore_disposed _ _ (hclear.2.1.2.2.2.2.2.2.2.2.2 k), (hcl.2.2.2.2.2.2.2 k).2.2.2.1]
    have hprep_ctx : (pushCtx (clearDeps (runCleanup s j) (NodeRef.effect j))
        (NodeRef.effect j)).ctx = NodeRef.effect j :: s.ctx := by
      rw [pushCtx_ctx, hclear.1, hcl.1]
    cases hexec : execCmds fuel (pushCtx (clearDeps (runCleanup s j) (NodeRef.effect j))
        (NodeRef.effect j)) ((getEffect s j).body) with
    | ok s3 =>
        obtain ⟨hc2, hb2, _⟩ := execCmds_ok fuel _ _ _ hexec
        have hfin := finishEffect_pres (popCtx s3) j (getEffect s j).hasCleanup
        refine ⟨?_, ?_, ?_, ?_⟩
        · rw [hfin.2.1, popCtx_dom, hb2.1, hprep_dom]
        · rw [hfin.2.2.1, popCtx_effects, hb2.2.2.2.1, hprep_len]
        · intro k
          rw [(hfin.2.2.2 k).2.2.1,
            show getEffect (popCtx s3) k = getEffect s3 k from rfl,
            effCore_disposed _ _ (hb2.2.2.2.2.2 k), hprep_disp k]
        · rw [hfin.1, popCtx_ctx, hc2, hprep_ctx]
          rfl
    | error err =>
        refine ⟨?_, ?_, ?_, ?_⟩
        · rw [popCtx_dom, hprep_dom]
        · rw [popCtx_effects]
          exact hprep_len
        · intro k
          rw [show getEffect (popCtx (pushCtx (clearDeps (runCleanup s j) (NodeRef.effect j))
            (NodeRef.effect j))) k = getEffect (pushCtx (clearDeps (runCleanup s j)
            (NodeRef.effect j)) (NodeRef.effect j)) k from rfl]
          exact hprep_disp k
        · rw [popCtx_ctx, hprep_ctx]
          rfl

theorem disposeEffect_disposes (u : Runtime) (j : Nat) (hj : j < u.effects.length) :
    (getEffect (disposeEffect u j) j).disposed = true := by
  rw [disposeEffect_eq]
  by_cases hd : (getEffect u j).disposed = true
  · rw [if_pos hd]
    exact hd
  · rw [if_neg hd]
    have hcl := runCleanup_pres u j
    have hclear := clearDeps_trackPres (runCleanup u j) (NodeRef.effect j)
    have hlen : j < (clearDeps (runCleanup u j) (NodeRef.effect j)).effects.length := by
      rw [hclear.2.1.2.2.2.2.2.1, hcl.2.2.2.2.2.2.1]
      exact hj
    rw [getEffect_modify_self _ j _ hlen]

/-! ## Bodies without derived reads never fail -/

theorem isDerivedHead_ext (s t : Runtime) (h : t.ctx = s.ctx) :
    isDerivedHead t = isDerivedHead s := by
  unfold isDerivedHead
  rw [h]

theorem evalExpr_nd_ok (fuel : Nat) : ∀ (e : Expr), exprND e = true →
    ∀ s : Runtime, ∃ p, evalExpr fuel s e = Except.ok p := by
  intro e
  induction e with
  | lit n =>
      intro _ s
      obtain ⟨recur, hr⟩ := evalExpr_as_evalE fuel
      exact ⟨(s, n), by rw [hr, evalE_lit]⟩
  | readCell i =>
      intro _ s
      obtain ⟨recur, hr⟩ := evalExpr_as_evalE fuel
      exact ⟨_, by rw [hr, evalE_readCell]⟩
  | readDerived i =>
      intro hnd _
      simp [exprND] at hnd
  | add a b iha ihb =>
      intro hnd s
      have hna : exprND a = true := by
        simp [exprND] at hnd
        exact hnd.1
      have hnb : exprND b = true := by
        simp [exprND] at hnd
        exact hnd.2
      obtain ⟨p, hp⟩ := iha hna s
      obtain ⟨q, hq⟩ := ihb hnb p.1
      obtain ⟨recur, hr⟩ := evalExpr_as_evalE fuel
      refine ⟨(q.1, p.2 + q.2), ?_⟩
      rw [hr, evalE_add, ← hr, hp]
      simp only [Except.bind]
      rw [hq]

theorem writeCell_nd_ok (s : Runtime) (i v : Nat) (h : isDerivedHead s = false) :
    ∃ t, writeCell s i v = Except.ok t := by
  unfold writeCell
  rw [h]
  simp only [Bool.false_eq_true, if_false, ite_false]
  by_cases hv : v = (getCell s i).value
  · rw [if_pos hv]
    exact ⟨_, rfl⟩
  · rw [if_neg hv]
    exact ⟨_, rfl⟩

theorem execCmd_nd_ok (fuel : Nat) (c : Cmd) (s : Runtime)
    (hnd : cmdND c = true) (hhead : isDerivedHead s = false) :
    ∃ t, execCmd fuel s c = Except.ok t := by
  cases c with
  | cwrite i e =>
      obtain ⟨p, hp⟩ := evalExpr_nd_ok fuel e (by simpa [cmdND] using hnd) s
      have hctx : p.1.ctx = s.ctx := (evalExpr_evalok fuel e s p.1 p.2 (by rw [hp])).1
      obtain ⟨t, ht⟩ := writeCell_nd_ok p.1 i p.2 (by rw [isDerivedHead_ext s p.1 hctx]; exact hhead)
      refine ⟨t, ?_⟩
      rw [execCmd_cwrite, hp]
      simp only [Except.bind]
      exact ht
  | cread e =>
      obtain ⟨p, hp⟩ := evalExpr_nd_ok fuel e (by simpa [cmdND] using hnd) s
      refine ⟨p.1, ?_⟩
      rw [execCmd_cread, hp]
      simp only [Except.bind]

theorem execCmds_nd_ok (fuel : Nat) : ∀ (cmds : List Cmd) (s : Runtime),
    cmds.all cmdND = true → isDerivedHead s = false →
    ∃ t, execCmds fuel s cmds = Except.ok t := by
  intro cmds
  induction cmds with
  | nil => intro s _ _; exact ⟨s, rfl⟩
  | cons c rest ih =>
      intro s hnd hhead
      rw [List.all_cons, Bool.and_eq_true] at hnd
      have hc : cmdND c = true := hnd.1
      have hrest : rest.all cmdND = true := hnd.2
      obtain ⟨s1, hs1⟩ := execCmd_nd_ok fuel c s hc hhead
      have hctx : s1.ctx = s.ctx := (execCmd_ok fuel c s s1 hs1).1
      obtain ⟨t, ht⟩ := ih s1 hrest (by rw [isDerivedHead_ext s s1 hctx]; exact hhead)
      refine ⟨t, ?_⟩
      rw [execCmds_cons, hs1]
      simp only [Except.bind]
      exact ht

/-! ## Dependencies of a completed effect run -/

theorem effect_run_deps (fe : Nat) (se te : Runtime) (j : Nat)
    (hdisp : (getEffect se j).disposed = false) (hctx : se.ctx = [])
    (hj : j < se.effects.length)
    (hexec : execCmds fe (pushCtx (clearDeps (runCleanup se j) (NodeRef.effect j))
        (NodeRef.effect j)) ((getEffect se j).body) = Except.ok te) :
    (getEffect (runEffect fe se j) j).deps
      = collectCmds se.deriveds.length ((getEffect se j).body) [] := by
  rw [runEffect_eq, if_neg (by rw [hdisp]; exact Bool.false_ne_true), hexec]
  have hcl := runCleanup_pres se j
  have hclear := clearDeps_trackPres (runCleanup se j) (NodeRef.effect j)
  have hprep_ctx : (pushCtx (clearDeps (runCleanup se j) (NodeRef.effect j))
      (NodeRef.effect j)).ctx = [NodeRef.effect j] := by
    rw [pushCtx_ctx, hclear.1, hcl.1, hctx]
  have hprep_elen : (pushCtx (clearDeps (runCleanup se j) (NodeRef.effect j))
      (NodeRef.effect j)).effects.length = se.effects.length := by
    rw [show (pushCtx (clearDeps (runCleanup se j) (NodeRef.effect j))
      (NodeRef.effect j)).effects = (clearDeps (runCleanup se j) (NodeRef.effect j)).effects from rfl,
      hclear.2.1.2.2.2.2.2.1, hcl.2.2.2.2.2.2.1]
  have hprep_dlen : (pushCtx (clearDeps (runCleanup se j) (NodeRef.effect j))
      (NodeRef.effect j)).deriveds.length = se.deriveds.length := by
    rw [show (pushCtx (clearDeps (runCleanup se j) (NodeRef.effect j))
      (NodeRef.effect j)).deriveds = (clearDeps (runCleanup se j) (NodeRef.effect j)).deriveds from rfl,
      hclear.2.1.2.2.2.2.1]
    rw [hcl.2.2.2.2.2.1]
  have hjlen : j < (clearDeps (runCleanup se j) (NodeRef.effect j)).effects.length := by
    rw [hclear.2.1.2.2.2.2.2.1, hcl.2.2.2.2.2.2.1]
    exact hj
  have hok2 : ctxOk (pushCtx (clearDeps (runCleanup se j) (NodeRef.effect j))
      (NodeRef.effect j)) := by
    constructor
    · rw [hprep_ctx]
      exact List.nodup_singleton _
    · intro r hr
      rw [hprep_ctx] at hr
      rcases List.mem_singleton.mp hr with rfl
      exact decide_eq_true hjlen
  have hrefok_rc : refOk (runCleanup se j) (NodeRef.effect j) = true := by
    simp [refOk, hcl.2.2.2.2.2.2.1, hj]
  have hdeps_prep : depsOf (pushCtx (clearDeps (runCleanup se j) (NodeRef.effect j))
      (NodeRef.effect j)) (NodeRef.effect j) = [] := by
    rw [show depsOf (pushCtx (clearDeps (runCleanup se j) (NodeRef.effect j))
        (NodeRef.effect j)) (NodeRef.effect j)
      = depsOf (clearDeps (runCleanup se j) (NodeRef.effect j)) (NodeRef.effect j) from rfl]
    exact clearDeps_deps_self (runCleanup se j) (NodeRef.effect j) hrefok_rc
  obtain ⟨hcE, hbE, hpE⟩ := execCmds_ok fe _ _ _ hexec
  have hmemE : NodeRef.effect j ∈ (pushCtx (clearDeps (runCleanup se j) (NodeRef.effect j))
      (NodeRef.effect j)).ctx := by
    rw [hprep_ctx]
    exact List.mem_singleton.mpr rfl
  have hdeps_te := hpE hok2 (NodeRef.effect j) hmemE
  rw [if_pos (by rw [hprep_ctx]; rfl), hdeps_prep, hprep_dlen] at hdeps_te
  have hfin := finishEffect_pres (popCtx te) j (getEffect se j).hasCleanup
  rw [(hfin.2.2.2 j).2.2.2.2]
  rw [show getEffect (popCtx te) j = getEffect te j from rfl]
  exact hdeps_te

/-- Claim C8: after every completed run of a derived or effect computation,
its dependency set equals exactly the ordered, deduplicated set of reads the
run performed: the old edges were dropped before execution, so no stale edge
survives. -/
theorem claimC8 (s t : Runtime) (i fuel v : Nat)
    (se te : Runtime) (j fe : Nat)
    (h1 : ctxOk s) (h2 : (getDerived s i).dirty = true) (h3 : i < s.deriveds.length)
    (h4 : evalExpr fuel s (Expr.readDerived i) = Except.ok (t, v))
    (h5 : (getEffect se j).disposed = false) (h6 : se.ctx = []) (h7 : j < se.effects.length)
    (h8 : execCmds fe (pushCtx (clearDeps (runCleanup se j) (NodeRef.effect j))
        (NodeRef.effect j)) ((getEffect se j).body) = Except.ok te) :
    (getDerived t i).deps = collectReads s.deriveds.length ((getDerived s i).formula) [] ∧
    (getEffect (runEffect fe se j) j).deps
      = collectCmds se.deriveds.length ((getEffect se j).body) [] :=
  ⟨read_dirty_deps fuel s t i v h1 h2 h3 h4,
   effect_run_deps fe se te j h5 h6 h7 h8⟩

/-- Witness for C8: the first read of the dirty sample derived leaves its
dependency set at exactly the one cell its formula reads; a run of the
sample effect leaves its dependency set at exactly the one cell its body
reads. -/
theorem claimC8_witness :
    (getDerived (evalResult 2 wDirty (Expr.readDerived 0)).1 0).deps
      = collectReads wDirty.deriveds.length ((getDerived wDirty 0).formula) [] ∧
    (getEffect (runEffect 1 wState 0) 0).deps
      = collectCmds wState.deriveds.length ((getEffect wState 0).body) [] := by
  exact claimC8 wDirty (evalResult 2 wDirty (Expr.readDerived 0)).1 0 2
    (evalResult 2 wDirty (Expr.readDerived 0)).2 wState
    (execResult 1 (pushCtx (clearDeps (runCleanup wState 0) (NodeRef.effect 0))
      (NodeRef.effect 0)) ((getEffect wState 0).body)) 0 1
    (by decide) (by decide) (by decide) (by decide) (by decide) (by decide)
    (by decide) (by decide)

/-! ## Cleanup counting -/

theorem isDerivedHead_effectHead (s : Runtime) (j : Nat)
    (h : s.ctx = [NodeRef.effect j]) : isDerivedHead s = false := by
  unfold isDerivedHead
  rw [h]
  rfl

theorem iterateRun_zero (fuel j : Nat) (s : Runtime) : iterateRun fuel j 0 s = s := rfl

theorem iterateRun_succ (fuel j n : Nat) (s : Runtime) :
    iterateRun fuel j (n + 1) s = iterateRun fuel j n (runEffect fuel s j) := rfl

theorem runEffect_step (fuel : Nat) (s : Runtime) (j : Nat)
    (hdisp : (getEffect s j).disposed = false) (hctx : s.ctx = [])
    (hnd : ((getEffect s j).body).all cmdND = true) (hj : j < s.effects.length) :
    (getEffect (runEffect fuel s j) j).pendingCleanup = (getEffect s j).hasCleanup ∧
    (getEffect (runEffect fuel s j) j).cleanupCount = (getEffect s j).cleanupCount +
      (if (getEffect s j).pendingCleanup = true then 1 else 0) ∧
    (getEffect (runEffect fuel s j) j).hasCleanup = (getEffect s j).hasCleanup ∧
    (getEffect (runEffect fuel s j) j).body = (getEffect s j).body := by
  have hcl := runCleanup_pres s j
  have hclear := clearDeps_trackPres (runCleanup s j) (NodeRef.effect j)
  have hprep_ctx : (pushCtx (clearDeps (runCleanup s j) (NodeRef.effect j))
      (NodeRef.effect j)).ctx = [NodeRef.effect j] := by
    rw [pushCtx_ctx, hclear.1, hcl.1, hctx]
  obtain ⟨te, hexec⟩ := execCmds_nd_ok fuel ((getEffect s j).body)
    (pushCtx (clearDeps (runCleanup s j) (NodeRef.effect j)) (NodeRef.effect j)) hnd
    (isDerivedHead_effectHead _ j hprep_ctx)
  obtain ⟨hcE, hbE, _⟩ := execCmds_ok fuel _ _ _ hexec
  have hprep_elen : (clearDeps (runCleanup s j) (NodeRef.effect j)).effects.length
      = s.effects.length := by
    rw [hclear.2.1.2.2.2.2.2.1, hcl.2.2.2.2.2.2.1]
  have hte_len : te.effects.length = s.effects.length := by
    rw [hbE.2.2.2.1]
    exact hprep_elen
  have hjlen : j < (popCtx te).effects.length := by
    rw [popCtx_effects, hte_len]
    exact hj
  have hcore_te : effCore (getEffect te j) = effCore (getEffect (runCleanup s j) j) := by
    have e1 := hbE.2.2.2.2.2 j
    have e2 := hclear.2.1.2.2.2.2.2.2.2.2.2 j
    rw [e1]
    rw [show getEffect (pushCtx (clearDeps (runCleanup s j) (NodeRef.effect j))
        (NodeRef.effect j)) j = getEffect (clearDeps (runCleanup s j) (NodeRef.effect j)) j from rfl]
    exact e2
  have hcount_te : (getEffect te j).cleanupCount = (getEffect s j).cleanupCount +
      (if (getEffect s j).pendingCleanup = true then 1 else 0) := by
    rw [effCore_cleanupCount _ _ hcore_te]
    exact (runCleanup_count s j hj).2
  have hhc_te : (getEffect te j).hasCleanup = (getEffect s j).hasCleanup := by
    rw [effCore_hasCleanup _ _ hcore_te]
    exact (hcl.2.2.2.2.2.2.2 j).2.2.1
  have hbody_te : (getEffect te j).body = (getEffect s j).body := by
    rw [effCore_body _ _ hcore_te]
    exact (hcl.2.2.2.2.2.2.2 j).1
  rw [runEffect_eq, if_neg (by rw [hdisp]; exact Bool.false_ne_true), hexec]
  have hfin_self := finishEffect_self (popCtx te) j (getEffect s j).hasCleanup hjlen
  have hfin_pres := finishEffect_pres (popCtx te) j (getEffect s j).hasCleanup
  refine ⟨hfin_self.1, ?_, ?_, ?_⟩
  · rw [(hfin_pres.2.2.2 j).2.2.2.1]
    rw [show getEffect (popCtx te) j = getEffect te j from rfl]
    exact hcount_te
  · rw [(hfin_pres.2.2.2 j).2.1]
    rw [show getEffect (popCtx te) j = getEffect te j from rfl]
    exact hhc_te
  · rw [(hfin_pres.2.2.2 j).1]
    rw [show getEffect (popCtx te) j = getEffect te j from rfl]
    exact hbody_te

theorem disposeEffect_count (s : Runtime) (j : Nat) (hj : j < s.effects.length)
    (hdisp : (getEffect s j).disposed = false) :
    (getEffect (disposeEffect s j) j).cleanupCount = (getEffect s j).cleanupCount +
      (if (getEffect s j).pendingCleanup = true then 1 else 0) := by
  rw [disposeEffect_eq, if_neg (by rw [hdisp]; exact Bool.false_ne_true)]
  have hcl := runCleanup_pres s j
  have hclear := clearDeps_trackPres (runCleanup s j) (NodeRef.effect j)
  have hjlen : j < (clearDeps (runCleanup s j) (NodeRef.effect j)).effects.length := by
    rw [hclear.2.1.2.2.2.2.2.1, hcl.2.2.2.2.2.2.1]
    exact hj
  rw [getEffect_modify_self _ j _ hjlen]
  show (getEffect (clearDeps (runCleanup s j) (NodeRef.effect j)) j).cleanupCount = _
  rw [effCore_cleanupCount _ _ (hclear.2.1.2.2.2.2.2.2.2.2.2 j)]
  exact (runCleanup_count s j hj).2

theorem iterate_state (fuel j : Nat) : ∀ (n : Nat) (s : Runtime),
    (getEffect s j).disposed = false → (getEffect s j).hasCleanup = true →
    ((getEffect s j).body).all cmdND = true → s.ctx = [] → j < s.effects.length →
    ((getEffect (iterateRun fuel j n s) j).disposed = false ∧
     ((getEffect (iterateRun fuel j n s) j).body).all cmdND = true ∧
     (iterateRun fuel j n s).ctx = [] ∧
     j < (iterateRun fuel j n s).effects.length) ∧
    ((n = 0 ∧ (getEffect (iterateRun fuel j n s) j).pendingCleanup = (getEffect s j).pendingCleanup ∧
        (getEffect (iterateRun fuel j n s) j).cleanupCount = (getEffect s j).cleanupCount) ∨
     (1 ≤ n ∧ (getEffect (iterateRun fuel j n s) j).pendingCleanup = true ∧
        (getEffect (iterateRun fuel j n s) j).cleanupCount
          = (getEffect s j).cleanupCount +
            (if (getEffect s j).pendingCleanup = true then 1 else 0) + (n - 1))) := by
  intro n
  induction n with
  | zero =>
      intro s hdisp hhc hnd hctx hj
      exact ⟨⟨hdisp, hnd, hctx, hj⟩, Or.inl ⟨rfl, rfl, rfl⟩⟩
  | succ n ih =>
      intro s hdisp hhc hnd hctx hj
      have hstep := runEffect_step fuel s j hdisp hctx hnd hj
      have hpres := runEffect_pres fuel s j
      have hdisp2 : (getEffect (runEffect fuel s j) j).disposed = false := by
        rw [hpres.2.2.1 j]
        exact hdisp
      have hhc2 : (getEffect (runEffect fuel s j) j).hasCleanup = true := by
        rw [hstep.2.2.1]
        exact hhc
      have hnd2 : ((getEffect (runEffect fuel s j) j).body).all cmdND = true := by
        rw [hstep.2.2.2]
        exact hnd
      have hctx2 : (runEffect fuel s j).ctx = [] := by
        rw [hpres.2.2.2]
        exact hctx
      have hj2 : j < (runEffect fuel s j).effects.length := by
        rw [hpres.2.1]
        exact hj
      have hih := ih (runEffect fuel s j) hdisp2 hhc2 hnd2 hctx2 hj2
      rw [iterateRun_succ]
      refine ⟨hih.1, Or.inr ⟨Nat.succ_le_succ (Nat.zero_le n), ?_, ?_⟩⟩
      · rcases hih.2 with ⟨_, hp, _⟩ | ⟨_, hp, _⟩
        · rw [hp, hstep.1, hhc]
        · exact hp
      · have hcnt2 : (getEffect (runEffect fuel s j) j).cleanupCount
            = (getEffect s j).cleanupCount +
              (if (getEffect s j).pendingCleanup = true then 1 else 0) := hstep.2.1
        have hpend2 : (getEffect (runEffect fuel s j) j).pendingCleanup = true := by
          rw [hstep.1]
          exact hhc
        rcases hih.2 with ⟨hn0, _, hc⟩ | ⟨hn1, _, hc⟩
        · subst hn0
          rw [hc, hcnt2]
          omega
        · rw [hc, hpend2, hcnt2]
          simp only [if_pos rfl, if_true]
          omega

/-- Claim C3: an effect whose body yields a cleanup, run N times and then
disposed, executes its cleanup exactly N times: never on the first run, once
before each rerun, once at disposal, and never twice for one transition;
runs and cleanups are sequential steps of the single-threaded runtime, so a
cleanup never overlaps the body. -/
theorem claimC3 (fuel : Nat) (s : Runtime) (j N : Nat)
    (h1 : (getEffect s j).disposed = false)
    (h2 : (getEffect s j).pendingCleanup = false)
    (h3 : (getEffect s j).cleanupCount = 0)
    (h4 : (getEffect s j).hasCleanup = true)
    (h5 : ((getEffect s j).body).all cmdND = true)
    (h6 : s.ctx = []) (h7 : j < s.effects.length) :
    (getEffect (disposeEffect (iterateRun fuel j N s) j) j).cleanupCount = N ∧
    (getEffect (disposeEffect (iterateRun fuel j N s) j) j).disposed = true := by
  obtain ⟨⟨hdisp, hnd, hctx, hlen⟩, hcount⟩ := iterate_state fuel j N s h1 h4 h5 h6 h7
  refine ⟨?_, disposeEffect_disposes _ j hlen⟩
  rw [disposeEffect_count _ j hlen hdisp]
  rcases hcount with ⟨hn0, hp, hc⟩ | ⟨hn1, hp, hc⟩
  · subst hn0
    rw [hc, h3, hp, h2]
    rfl
  · rw [hc, h3, h2, hp]
    simp only [if_neg Bool.false_ne_true, if_pos rfl, if_true]
    omega

/-- Witness for C3: the sample effect run three times and disposed has run
its cleanup exactly three times. -/
theorem claimC3_witness :
    (getEffect (disposeEffect (iterateRun 1 0 3 wState) 0) 0).cleanupCount = 3 ∧
    (getEffect (disposeEffect (iterateRun 1 0 3 wState) 0) 0).disposed = true :=
  claimC3 1 wState 0 3 (by decide) (by decide) (by decide) (by decide)
    (by decide) (by decide) (by decide)

/-! ## The scheduler trace: coalescing (C1) and phase ordering (C6) -/

theorem runList_cons (fuel : Nat) (ph : Phase) (s : Runtime) (a : Nat) (rest : List Nat) :
    runList fuel ph s (a :: rest) =
      if (getEffect s a).disposed then runList fuel ph s rest
      else ((runList fuel ph (runEffect fuel s a) rest).1,
            Event.run a ph s.domVersion :: (runList fuel ph (runEffect fuel s a) rest).2) := rfl

theorem runList_dom (fuel : Nat) (ph : Phase) :
    ∀ (l : List Nat) (s : Runtime), (runList fuel ph s l).1.domVersion = s.domVersion := by
  intro l
  induction l with
  | nil => intro s; rfl
  | cons a rest ih =>
      intro s
      rw [runList_cons]
      by_cases hd : (getEffect s a).disposed = true
      · rw [if_pos hd]
        exact ih s
      · rw [if_neg hd]
        show (runList fuel ph (runEffect fuel s a) rest).1.domVersion = s.domVersion
        rw [ih (runEffect fuel s a), (runEffect_pres fuel s a).1]

theorem runList_trace (fuel : Nat) (ph : Phase) :
    ∀ (l : List Nat) (s : Runtime),
      (runList fuel ph s l).2 =
        (l.filter (fun j => !(getEffect s j).disposed)).map
          (fun j => Event.run j ph s.domVersion) := by
  intro l
  induction l with
  | nil => intro s; rfl
  | cons a rest ih =>
      intro s
      rw [runList_cons]
      by_cases hd : (getEffect s a).disposed = true
      · rw [if_pos hd, ih s, List.filter_cons]
        simp [hd]
      · rw [if_neg hd]
        have hd0 : (getEffect s a).disposed = false := by
          cases h : (getEffect s a).disposed
          · rfl
          · exact absurd h hd
        show Event.run a ph s.domVersion :: (runList fuel ph (runEffect fuel s a) rest).2 = _
        rw [ih (runEffect fuel s a)]
        have hfil : rest.filter (fun j => !(getEffect (runEffect fuel s a) j).disposed)
            = rest.filter (fun j => !(getEffect s j).disposed) :=
          List.filter_congr (fun x _ => by rw [(runEffect_pres fuel s a).2.2.1 x])
        rw [hfil, (runEffect_pres fuel s a).1, List.filter_cons]
        simp [hd0]

theorem runsIn_runList_le (fuel : Nat) (ph : Phase) (j : Nat) :
    ∀ (l : List Nat) (s : Runtime),
      runsIn (runList fuel ph s l).2 j ≤ l.countP (fun k => k == j) := by
  intro l
  induction l with
  | nil => intro s; exact Nat.le_refl 0
  | cons a rest ih =>
      intro s
      rw [runList_cons]
      by_cases hd : (getEffect s a).disposed = true
      · rw [if_pos hd]
        refine Nat.le_trans (ih s) ?_
        rw [List.countP_cons]
        omega
      · rw [if_neg hd]
        show runsIn (Event.run a ph s.domVersion ::
            (runList fuel ph (runEffect fuel s a) rest).2) j ≤ _
        have hih := ih (runEffect fuel s a)
        by_cases haj : (a == j) = true
        · have e1 : runsIn (Event.run a ph s.domVersion ::
              (runList fuel ph (runEffect fuel s a) rest).2) j
              = runsIn (runList fuel ph (runEffect fuel s a) rest).2 j + 1 := by
            simp [runsIn, List.countP_cons, haj]
          have e2 : (a :: rest).countP (fun k => k == j)
              = rest.countP (fun k => k == j) + 1 := by
            simp [List.countP_cons, haj]
          rw [e1, e2]
          omega
        · have e1 : runsIn (Event.run a ph s.domVersion ::
              (runList fuel ph (runEffect fuel s a) rest).2) j
              = runsIn (runList fuel ph (runEffect fuel s a) rest).2 j := by
            simp [runsIn, List.countP_cons, haj]
          have e2 : (a :: rest).countP (fun k => k == j)
              = rest.countP (fun k => k == j) := by
            simp [List.countP_cons, haj]
          rw [e1, e2]
          exact hih

theorem countP_le_one_of_nodup (l : List Nat) (h : l.Nodup) (j : Nat) :
    l.countP (fun k => k == j) ≤ 1 := by
  have hc := List.nodup_iff_count_le_one.mp h j
  simpa [List.count] using hc

theorem getEffect_enqueue (s : Runtime) (j k : Nat) :
    getEffect (enqueueEffect s j) k = getEffect s k := by
  simp only [enqueueEffect]
  by_cases h : j ∈ queueOf s ((getEffect s j).phase)
  · rw [if_pos h]
  · rw [if_neg h]
    unfold getEffect
    rw [setQueue_effects]

theorem enqueueEffect_idem (s : Runtime) (j : Nat) :
    enqueueEffect (enqueueEffect s j) j = enqueueEffect s j := by
  apply enqueue_idem
  rw [getEffect_enqueue]
  exact enqueue_self_mem s j

/-- Claim C1: whatever sequence of writes precedes a flush, enqueueing is
idempotent, the pending queues stay duplicate-free, and the flush of either
phase runs any given effect at most once, so an effect dirtied by several
writes in one turn reruns at most once per phase flush. -/
theorem claimC1 (fuel : Nat) (s : Runtime) (ws : List (Nat × Nat)) (ph : Phase) (j : Nat)
    (hn : queuesNodup s) :
    enqueueEffect (enqueueEffect s j) j = enqueueEffect s j ∧
    queuesNodup (applyWrites s ws) ∧
    runsIn (flushPhase fuel ph (applyWrites s ws)).2 j ≤ 1 := by
  refine ⟨enqueueEffect_idem s j, applyWrites_nodup s ws hn, ?_⟩
  have ht : queuesNodup (applyWrites s ws) := applyWrites_nodup s ws hn
  have hq : (queueOf (applyWrites s ws) ph).Nodup := by
    cases ph
    · exact ht.1
    · exact ht.2
  unfold flushPhase
  exact Nat.le_trans
    (runsIn_runList_le fuel ph j (queueOf (applyWrites s ws) ph) _)
    (countP_le_one_of_nodup _ hq j)

/-- Witness for C1: in the sample state, after two writes to the same cell,
the post flush runs the subscribed effect at most once. -/
theorem claimC1_witness :
    queuesNodup wState ∧
    (enqueueEffect (enqueueEffect wState 0) 0 = enqueueEffect wState 0 ∧
     queuesNodup (applyWrites wState [(0, 9), (0, 7)]) ∧
     runsIn (flushPhase 5 Phase.post (applyWrites wState [(0, 9), (0, 7)])).2 0 ≤ 1) :=
  ⟨⟨List.nodup_nil, List.nodup_nil⟩,
   claimC1 5 wState [(0, 9), (0, 7)] Phase.post 0 ⟨List.nodup_nil, List.nodup_nil⟩⟩

theorem getEffect_setQueue (s : Runtime) (ph2 : Phase) (q : List Nat) (k : Nat) :
    getEffect (setQueue s ph2 q) k = getEffect s k := by
  unfold getEffect
  rw [setQueue_effects]

theorem flushPhase_trace (fuel : Nat) (ph : Phase) (s : Runtime) :
    (flushPhase fuel ph s).2 =
      ((queueOf s ph).filter (fun j => !(getEffect s j).disposed)).map
        (fun j => Event.run j ph s.domVersion) := by
  unfold flushPhase
  rw [runList_trace]
  simp only [getEffect_setQueue, setQueue_dom]

theorem flushPhase_dom (fuel : Nat) (ph : Phase) (s : Runtime) :
    (flushPhase fuel ph s).1.domVersion = s.domVersion := by
  unfold flushPhase
  rw [runList_dom, setQueue_dom]

theorem renderStep_dom (s : Runtime) : (renderStep s).domVersion = s.domVersion + 1 := rfl

theorem getEffect_renderStep (s : Runtime) (k : Nat) :
    getEffect (renderStep s) k = getEffect s k := rfl

theorem queueOf_renderStep (s : Runtime) (ph : Phase) :
    queueOf (renderStep s) ph = queueOf s ph := by
  cases ph <;> rfl

/-- Claim C6: the trace of one tick is exactly the pending PRE queue, run in
enqueue order and stamped with the DOM version of before the render step,
then the render step, then the then-pending POST queue, run in enqueue order
and stamped with the DOM version of after the render step. -/
theorem claimC6 (fuel : Nat) (s : Runtime) :
    (tick fuel s).2 =
      ((queueOf s Phase.pre).filter (fun j => !(getEffect s j).disposed)).map
          (fun j => Event.run j Phase.pre s.domVersion) ++
        Event.render ::
          ((queueOf (flushPhase fuel Phase.pre s).1 Phase.post).filter
              (fun j => !(getEffect (flushPhase fuel Phase.pre s).1 j).disposed)).map
            (fun j => Event.run j Phase.post (s.domVersion + 1)) := by
  show (flushPhase fuel Phase.pre s).2 ++ Event.render ::
      (flushPhase fuel Phase.post (renderStep (flushPhase fuel Phase.pre s).1)).2 = _
  rw [flushPhase_trace, flushPhase_trace]
  simp only [getEffect_renderStep, queueOf_renderStep, renderStep_dom, flushPhase_dom]

/-! ## The declared rune signatures (C9 and C10) -/

/-- Counterexample to C9 as stated: in ambient.d.ts neither effect nor
effect.pre returns a function, so no disposal function reaches the caller
through the rune's return value. -/
theorem claimC9_counterexample :
    TSType.isFn effectDeclTS.ret = false ∧ TSType.isFn effectPreDeclTS.ret = false := by
  decide

/-- Claim C9, amended: the declared effect and effect.pre runes return void
(not a disposal function); it is the spec's internal create(body, phase)
that returns a disposal closure, and applying that closure to the returned
state marks the created effect disposed. -/
theorem claimC9 (fuel : Nat) (s : Runtime) (body : List Cmd) (ph : Phase) (hc : Bool) :
    effectDeclTS.ret = TSType.voidT ∧
    effectPreDeclTS.ret = TSType.voidT ∧
    (getEffect ((createEffect fuel s body ph hc).2.2 (createEffect fuel s body ph hc).1)
        (createEffect fuel s body ph hc).2.1).disposed = true := by
  refine ⟨rfl, rfl, ?_⟩
  simp only [createEffect]
  apply disposeEffect_disposes
  rw [(runEffect_pres fuel _ _).2.1, List.length_append]
  exact Nat.lt_succ_self _

/-- Counterexample to C10 as stated: the declared zero-argument overload of
state returns the union type T or undefined, which is not T. -/
theorem claimC10_counterexample :
    ((stateDeclTS.filter (fun o => o.params = [])).map TSOverload.ret
      = [TSType.unionT TSType.tvar TSType.undef]) ∧
    TSType.unionT TSType.tvar TSType.undef ≠ TSType.tvar := by
  decide

/-- Claim C10, amended: in the declared overloads of state, every overload
taking an initial value returns T, while the zero-argument overload returns
T or undefined — a type distinct from plain T. -/
theorem claimC10 :
    (∀ o ∈ stateDeclTS, o.params ≠ [] → o.ret = TSType.tvar) ∧
    (∀ o ∈ stateDeclTS, o.params = [] → o.ret = TSType.unionT TSType.tvar TSType.undef) ∧
    (∃ o ∈ stateDeclTS, o.params = [] ∧ o.ret ≠ TSType.tvar) := by
  decide

end Svelte